import Mathlib

/-!
Verification of the byte-level memory model of the MIR interpreter
(`compiler/rustc_middle/src/mir/interpret/allocation.rs`).

The `Allocation` type and all of its operations are translated directly from
`allocation.rs`.  The supporting components that `allocation.rs` uses but whose
source is not part of this tree (`InitMask` from `init_mask.rs`,
`ProvenanceMap` from `provenance_map.rs`, `Scalar` and the endianness helpers
`read_target_uint` / `write_target_uint` from the surrounding `interpret`
module) are modelled from the specification; each such definition carries a
doc comment saying so.

Machine integers (`u64` offsets, `u128` scalar data) are modelled as `Nat`;
the source performs overflow-checked arithmetic (panicking on overflow), and
no operation here relies on wraparound.  Rust panics (assertion failures,
out-of-bounds slicing, process abort) are modelled by an outer `Option`:
`none` is a panic, `some r` is a normal return with result `r`.  Fallible
operations return `Except AllocError` inside that `Option`.  Operations that
mutate `&mut self` are modelled as functions returning the new allocation
together with the result, so that partial mutation before an error return is
observable, exactly as it is for a Rust caller retaining the `&mut`.
-/

namespace MirAlloc

/-- Mirror of `rustc_ast::Mutability`. -/
inductive Mutability where
  | Not : Mutability
  | Mut : Mutability
deriving DecidableEq, Repr

/-- Byte order of the target, from the data layout. -/
inductive Endian where
  | little : Endian
  | big : Endian
deriving DecidableEq, Repr

/-- The part of `HasDataLayout` that `allocation.rs` consults:
the pointer size in bytes and the endianness. -/
structure DataLayout where
  pointer_size : Nat
  endian : Endian
deriving DecidableEq, Repr

/-- Provenance value of the `tcx` allocations: an allocation identifier. -/
structure AllocId where
  id : Nat
deriving DecidableEq, Repr

/-- A concrete machine-level provenance kind used to exercise the
`OFFSET_IS_ADDR = true` paths (as a Miri-style machine would). -/
structure MachProv where
  id : Nat
deriving DecidableEq, Repr

/-- Modelled from the spec: the capability interface of a Provenance kind
(the `Provenance` trait), as an explicit dictionary: whether byte offsets
double as ordinary addresses, and the byte-wise join operator
("joining none with any value yields that value; joining two distinct
concrete values yields an ambiguous/absent result"). -/
structure ProvKind (Prov : Type) where
  OFFSET_IS_ADDR : Bool
  join : Option Prov → Option Prov → Option Prov

/-- The `Provenance` impl of `AllocId`: offsets are not addresses; the
byte-wise join is never reached on this kind. -/
def allocIdKind : ProvKind AllocId :=
  ⟨false, fun _ _ => none⟩

/-- Modelled from the spec: a machine provenance kind whose offsets are
ordinary addresses, with the spec's default join policy. -/
def machKind : ProvKind MachProv :=
  ⟨true, fun a b =>
    match a, b with
    | none, b => b
    | a, none => a
    | some x, some y => if x = y then some x else none⟩

/-- The information that makes up a memory access: offset and size
(`AllocRange` in `allocation.rs`). -/
structure AllocRange where
  start : Nat
  size : Nat
deriving DecidableEq, Repr

/-- Free-standing constructor `alloc_range`. -/
def alloc_range (start size : Nat) : AllocRange :=
  ⟨start, size⟩

/-- `AllocRange::end` (named `endOf` because `end` is a Lean keyword):
`start + size`, overflow-checked in the source, exact on `Nat`. -/
def AllocRange.endOf (r : AllocRange) : Nat :=
  r.start + r.size

/-- `AllocRange::subrange`: the sub-range re-based into `self`; the source
asserts `range.end() <= self.end()` and panics otherwise (`none` here). -/
def AllocRange.subrange (self sub : AllocRange) : Option AllocRange :=
  let sub_start := self.start + sub.start
  let range := alloc_range sub_start sub.size
  if range.endOf ≤ self.endOf then some range else none

/-- Payload of a `ScalarSizeMismatch` error. -/
structure ScalarSizeMismatch where
  target_size : Nat
  data_size : Nat
deriving DecidableEq, Repr

/-- Details of an access to uninitialized bytes: the requested access range
and the first uninitialized sub-range hit. -/
structure UninitBytesAccess where
  access : AllocRange
  uninit : AllocRange
deriving DecidableEq, Repr

/-- The allocation-local error type `AllocError`. -/
inductive AllocError where
  | ScalarSizeMismatch : ScalarSizeMismatch → AllocError
  | ReadPointerAsBytes : AllocError
  | PartialPointerOverwrite : Nat → AllocError
  | PartialPointerCopy : Nat → AllocError
  | InvalidUninitBytes : Option UninitBytesAccess → AllocError
deriving DecidableEq, Repr

/-- `AllocResult<T>`. -/
abbrev AllocResult (α : Type) : Type := Except AllocError α

instance {ε α : Type} [DecidableEq ε] [DecidableEq α] :
    DecidableEq (Except ε α) := fun x y =>
  match x, y with
  | .ok a, .ok b =>
      if h : a = b then .isTrue (by rw [h])
      else .isFalse (by intro hc; cases hc; exact h rfl)
  | .error a, .error b =>
      if h : a = b then .isTrue (by rw [h])
      else .isFalse (by intro hc; cases hc; exact h rfl)
  | .ok _, .error _ => .isFalse (by intro hc; cases hc)
  | .error _, .ok _ => .isFalse (by intro hc; cases hc)

/-- The interpreter error surfaced by `uninit` on allocation failure. -/
inductive InterpErr where
  | MemoryExhausted : InterpErr
deriving DecidableEq, Repr

/-- Modelled from the spec: the opaque scalar value (`Scalar`), a tagged
union of a plain integer (data plus size in bytes) or a pointer
(provenance identity, offset, size in bytes). -/
inductive Scalar (Prov : Type) where
  | int : Nat → Nat → Scalar Prov
  | ptr : Prov → Nat → Nat → Scalar Prov
deriving DecidableEq, Repr

/-- Modelled from the spec: `Scalar::to_bits_or_ptr_internal(target_size)`,
the decomposition used by `write_scalar`: a size check against the
requested size (`ScalarSizeMismatch` on failure), yielding either the raw
bits of an integer or the pointer's parts.  The source asserts the target
size is non-zero (panic, `none` here). -/
def Scalar.to_bits_or_ptr_internal (val : Scalar Prov) (target_size : Nat) :
    Option (Except ScalarSizeMismatch (Sum Nat (Prov × Nat))) :=
  if target_size = 0 then none
  else
    match val with
    | .int data size =>
        if size = target_size then some (.ok (.inl data))
        else some (.error ⟨target_size, size⟩)
    | .ptr prov offset size =>
        if size = target_size then some (.ok (.inr (prov, offset)))
        else some (.error ⟨target_size, size⟩)

/-- Size in bytes carried by a scalar. -/
def Scalar.sizeOf : Scalar Prov → Nat
  | .int _ size => size
  | .ptr _ _ size => size

/-- Validity invariant of a scalar: its data (for a pointer, its offset)
fits in its size in bytes. -/
def Scalar.fits : Scalar Prov → Prop
  | .int data size => data < 2 ^ (8 * size)
  | .ptr _ offset size => offset < 2 ^ (8 * size)

instance {Prov : Type} : (v : Scalar Prov) → Decidable v.fits
  | .int data size => inferInstanceAs (Decidable (data < 2 ^ (8 * size)))
  | .ptr _ offset size => inferInstanceAs (Decidable (offset < 2 ^ (8 * size)))

/-! ## Raw byte buffers -/

/-- Byte lookup in a buffer (out of range reads as 0; all real accesses are
guarded by explicit bounds checks mirroring the source's panics). -/
def byteAt (l : List Nat) (i : Nat) : Nat :=
  l.getD i 0

/-- The sub-buffer `l[start .. start+size]`. -/
def sliceBytes (l : List Nat) (start size : Nat) : List Nat :=
  (l.drop start).take size

/-- Overwrite the window starting at `start` with `new`
(`copy_from_slice` semantics; callers establish bounds). -/
def writeBytes (l : List Nat) (start : Nat) (new : List Nat) : List Nat :=
  l.take start ++ new ++ l.drop (start + new.length)

/-- Modelled from the spec: little-endian packing of an unsigned integer
into `n` bytes, low byte first. -/
def writeLEBytes : Nat → Nat → List Nat
  | 0, _ => []
  | n + 1, data => (data % 256) :: writeLEBytes n (data / 256)

/-- Modelled from the spec: little-endian decoding of a byte buffer. -/
def readLEBytes : List Nat → Nat
  | [] => 0
  | b :: bs => b + 256 * readLEBytes bs

/-- Modelled from the spec: `write_target_uint` — raw little/big-endian
integer packing into a buffer of the given length. -/
def write_target_uint (endian : Endian) (len data : Nat) : List Nat :=
  match endian with
  | .little => writeLEBytes len data
  | .big => (writeLEBytes len data).reverse

/-- Modelled from the spec: `read_target_uint` — raw little/big-endian
integer decoding of a buffer. -/
def read_target_uint (endian : Endian) (bs : List Nat) : Nat :=
  match endian with
  | .little => readLEBytes bs
  | .big => readLEBytes bs.reverse

/-! ## Initialization mask -/

/-- Set `len` bits to `flag` starting at index `start` (within the existing
length; an initialization mask never grows). -/
def setBits : List Bool → Nat → Nat → Bool → List Bool
  | [], _, _, _ => []
  | b :: bs, 0, 0, _ => b :: bs
  | _ :: bs, 0, n + 1, f => f :: setBits bs 0 n f
  | b :: bs, s + 1, n, f => b :: setBits bs s n f

/-- Modelled from the spec: the Initialization Mask — logically a bit per
byte offset (`true` = defined).  The physical run-length organization of the
source is an encoding detail "independent of its logical semantics"; the
logical bit-per-byte view is used here. -/
structure InitMask where
  bits : List Bool
deriving DecidableEq, Repr

/-- `InitMask::new(size, state)`. -/
def InitMask.new (size : Nat) (state : Bool) : InitMask :=
  ⟨List.replicate size state⟩

/-- The bit for byte `i` (out of range reads as `false`). -/
def InitMask.get (m : InitMask) (i : Nat) : Bool :=
  m.bits.getD i false

/-- `InitMask::set_range(range, flag)`. -/
def InitMask.set_range (m : InitMask) (r : AllocRange) (flag : Bool) : InitMask :=
  ⟨setBits m.bits r.start r.size flag⟩

/-- First index in `[start, stop)` whose bit equals `target`. -/
def InitMask.findBit (m : InitMask) (start stop : Nat) (target : Bool) : Option Nat :=
  (List.range' start (stop - start)).find? fun i => m.get i == target

/-- Modelled from the spec: `InitMask::is_range_initialized(range)` —
success iff every byte in the range is marked defined; on failure returns
the first contiguous uninitialized sub-range for diagnostics. -/
def InitMask.is_range_initialized (m : InitMask) (r : AllocRange) :
    Except AllocRange Unit :=
  match m.findBit r.start (r.start + r.size) false with
  | none => .ok ()
  | some i =>
      .error ⟨i, ((m.findBit i (r.start + r.size) true).getD (r.start + r.size)) - i⟩

/-! ## Provenance map -/

/-- Modelled from the spec: the Provenance Map — entries `(offset, prov)`,
sorted by offset, offsets unique, each entry covering `pointer_size`
consecutive bytes starting at its offset. -/
structure ProvenanceMap (Prov : Type) where
  ptrs : List (Nat × Prov)
deriving DecidableEq, Repr

/-- `ProvenanceMap::new()`. -/
def ProvenanceMap.new : ProvenanceMap Prov :=
  ⟨[]⟩

/-- `ProvenanceMap::from_presorted_ptrs`. -/
def ProvenanceMap.from_presorted_ptrs (l : List (Nat × Prov)) : ProvenanceMap Prov :=
  ⟨l⟩

/-- Does the pointer-sized run starting at `off` overlap the range?
(For an empty range this detects entries crossing the range's start edge,
matching the source's `range_get_ptrs` on a length-0 range.) -/
def overlapsRange (ptr_size off : Nat) (r : AllocRange) : Bool :=
  decide (off < r.endOf) && decide (r.start < off + ptr_size)

/-- Is the pointer-sized run starting at `off` fully inside the range? -/
def containedInRange (ptr_size off : Nat) (r : AllocRange) : Bool :=
  decide (r.start ≤ off) && decide (off + ptr_size ≤ r.endOf)

/-- `ProvenanceMap::get_ptr(offset)`: provenance of an entry starting
exactly at `offset`. -/
def ProvenanceMap.get_ptr (m : ProvenanceMap Prov) (offset : Nat) : Option Prov :=
  (m.ptrs.find? fun e => e.1 == offset).map Prod.snd

/-- Modelled from the spec: byte-wise lookup — the provenance of the entry
whose pointer-sized run covers the given byte. -/
def ProvenanceMap.get (m : ProvenanceMap Prov) (offset : Nat) (cx : DataLayout) :
    Option Prov :=
  (m.ptrs.find? fun e =>
    decide (e.1 ≤ offset) && decide (offset < e.1 + cx.pointer_size)).map Prod.snd

/-- `ProvenanceMap::range_empty(range, cx)`: no entry overlaps the range. -/
def ProvenanceMap.range_empty (m : ProvenanceMap Prov) (r : AllocRange)
    (cx : DataLayout) : Bool :=
  m.ptrs.all fun e => !(overlapsRange cx.pointer_size e.1 r)

/-- Modelled from the spec: `ProvenanceMap::clear(range, cx)` — removes
entries fully inside the range and destroys (rather than truncates) any
straddling entry; when destruction is disallowed (the provenance kind does
not treat offsets as addresses) a straddling entry raises
`PartialPointerOverwrite` carrying its offset, with no mutation.
A zero-size range is a no-op. -/
def ProvenanceMap.clear (m : ProvenanceMap Prov) (pk : ProvKind Prov)
    (r : AllocRange) (cx : DataLayout) : Except AllocError (ProvenanceMap Prov) :=
  if r.size = 0 then .ok m
  else if pk.OFFSET_IS_ADDR then
    .ok ⟨m.ptrs.filter fun e2 => !(overlapsRange cx.pointer_size e2.1 r)⟩
  else
    match m.ptrs.find? fun e =>
        overlapsRange cx.pointer_size e.1 r &&
        !(containedInRange cx.pointer_size e.1 r) with
    | some e => .error (.PartialPointerOverwrite e.1)
    | none => .ok ⟨m.ptrs.filter fun e2 => !(overlapsRange cx.pointer_size e2.1 r)⟩

/-- Insert keeping the offset order, replacing an existing entry at the same
offset (`SortedMap::insert` semantics). -/
def insertSorted : List (Nat × Prov) → Nat → Prov → List (Nat × Prov)
  | [], o, p => [(o, p)]
  | e :: rest, o, p =>
      if o < e.1 then (o, p) :: e :: rest
      else if o = e.1 then (o, p) :: rest
      else e :: insertSorted rest o p

/-- `ProvenanceMap::insert_ptr(offset, prov, cx)`. -/
def ProvenanceMap.insert_ptr (m : ProvenanceMap Prov) (offset : Nat) (prov : Prov) :
    ProvenanceMap Prov :=
  ⟨insertSorted m.ptrs offset prov⟩

/-! ## Allocation -/

/-- The `Allocation` struct: bytes, provenance map, initialization mask,
alignment (power of two, informational), mutability, and the opaque
machine-specific `extra`. -/
structure Allocation (Prov : Type) (Extra : Type) where
  bytes : List Nat
  provenance : ProvenanceMap Prov
  init_mask : InitMask
  align : Nat
  mutability : Mutability
  extra : Extra
deriving DecidableEq, Repr

/-- `Allocation::from_bytes(slice, align, mutability)`. -/
def Allocation.from_bytes (slice : List Nat) (align : Nat) (mutability : Mutability) :
    Allocation Prov Unit :=
  ⟨slice, ProvenanceMap.new, InitMask.new slice.length true, align, mutability, ()⟩

/-- `Allocation::uninit(size, align, panic_on_fail)`.  The success or failure
of the underlying zeroed buffer allocation (`try_new_zeroed_slice`) is
non-deterministic host behavior; it is exposed as the explicit parameter
`alloc_fails`.  On failure, `panic_on_fail` aborts the process (`none`);
otherwise a `MemoryExhausted` resource-exhaustion error is returned. -/
def Allocation.uninit (size align : Nat) (panic_on_fail : Bool) (alloc_fails : Bool) :
    Option (Except InterpErr (Allocation Prov Unit)) :=
  if alloc_fails then
    if panic_on_fail then none
    else some (.error .MemoryExhausted)
  else
    some (.ok ⟨List.replicate size 0, ProvenanceMap.new, InitMask.new size false,
      align, Mutability.Mut, ()⟩)

/-- The body of the `adjust_from_tcx` loop over provenance entries: decode
the pointer-sized integer at each entry's offset, remap, re-encode the new
offset into the same bytes, record the new provenance at the same offset.
Out-of-bounds slicing of `bytes[idx..idx+ptr_size]` panics (`none`). -/
def adjustLoop (cx : DataLayout)
    (adjust_ptr : AllocId × Nat → Except Err (Prov × Nat)) :
    List (Nat × AllocId) → List Nat →
    Option (Except Err (List Nat × List (Nat × Prov)))
  | [], bytes => some (.ok (bytes, []))
  | (offset, alloc_id) :: rest, bytes =>
      if offset + cx.pointer_size ≤ bytes.length then
        match adjust_ptr (alloc_id,
            read_target_uint cx.endian (sliceBytes bytes offset cx.pointer_size)) with
        | .error e => some (.error e)
        | .ok (ptr_prov, ptr_offset) =>
            match adjustLoop cx adjust_ptr rest
                (writeBytes bytes offset (write_target_uint cx.endian cx.pointer_size ptr_offset)) with
            | none => none
            | some (.error e) => some (.error e)
            | some (.ok (bytes2, np)) => some (.ok (bytes2, (offset, ptr_prov) :: np))
      else none

/-- `Allocation::adjust_from_tcx(cx, extra, adjust_ptr)`: rewrite every
recorded pointer's identity with the fallible `adjust_ptr`, adjusting the
pointer bytes in place; the allocation is consumed, so on failure no
partially mutated state is observable by the caller. -/
def Allocation.adjust_from_tcx (a : Allocation AllocId Unit) (cx : DataLayout)
    (extra : Extra) (adjust_ptr : AllocId × Nat → Except Err (Prov × Nat)) :
    Option (Except Err (Allocation Prov Extra)) :=
  match adjustLoop cx adjust_ptr a.provenance.ptrs a.bytes with
  | none => none
  | some (.error e) => some (.error e)
  | some (.ok (bytes, new_provenance)) =>
      some (.ok ⟨bytes, ProvenanceMap.from_presorted_ptrs new_provenance,
        a.init_mask, a.align, a.mutability, extra⟩)

/-- `Allocation::len()`. -/
def Allocation.lenOf (a : Allocation Prov Extra) : Nat :=
  a.bytes.length

/-- `Allocation::get_bytes_unchecked(range)`: raw view with no provenance or
initialization validation; the slicing panics when out of bounds. -/
def Allocation.get_bytes_unchecked (a : Allocation Prov Extra) (r : AllocRange) :
    Option (List Nat) :=
  if r.endOf ≤ a.bytes.length then some (sliceBytes a.bytes r.start r.size)
  else none

/-- `Allocation::get_bytes_strip_provenance(cx, range)`: checks the range is
initialized (else `InvalidUninitBytes` carrying the access and the uninit
sub-range), then — unless offsets are addresses — that no provenance
overlaps the range (else `ReadPointerAsBytes`); returns the raw bytes. -/
def Allocation.get_bytes_strip_provenance (a : Allocation Prov Extra)
    (pk : ProvKind Prov) (cx : DataLayout) (r : AllocRange) :
    Option (AllocResult (List Nat)) :=
  match a.init_mask.is_range_initialized r with
  | .error uninit_range =>
      some (.error (.InvalidUninitBytes (some ⟨r, uninit_range⟩)))
  | .ok _ =>
      if !pk.OFFSET_IS_ADDR && !(a.provenance.range_empty r cx) then
        some (.error .ReadPointerAsBytes)
      else
        (a.get_bytes_unchecked r).map .ok

/-- `Allocation::mark_init(range, is_init)`: no-op for a zero-size range;
otherwise asserts mutability (panic if violated) and sets the bits. -/
def Allocation.mark_init (a : Allocation Prov Extra) (r : AllocRange)
    (is_init : Bool) : Option (Allocation Prov Extra) :=
  if r.size = 0 then some a
  else if a.mutability = Mutability.Mut then
    some { a with init_mask := a.init_mask.set_range r is_init }
  else none

/-- `Allocation::get_bytes_mut(cx, range)`: first marks the whole range
initialized, then clears overlapping provenance (the partial-overwrite error
is returned after the mask was already mutated), then hands out the bytes
(slicing panics when out of bounds). -/
def Allocation.get_bytes_mut (a : Allocation Prov Extra) (pk : ProvKind Prov)
    (cx : DataLayout) (r : AllocRange) :
    Option (Allocation Prov Extra × AllocResult (List Nat)) :=
  match a.mark_init r true with
  | none => none
  | some a1 =>
      match a1.provenance.clear pk r cx with
      | .error e => some (a1, .error e)
      | .ok pm =>
          if r.endOf ≤ a1.bytes.length then
            some ({ a1 with provenance := pm }, .ok (sliceBytes a1.bytes r.start r.size))
          else none

/-- `Allocation::get_bytes_mut_ptr(cx, range)`: same marking and clearing as
`get_bytes_mut`, with its own explicit bounds check (assert, panic on
failure). -/
def Allocation.get_bytes_mut_ptr (a : Allocation Prov Extra) (pk : ProvKind Prov)
    (cx : DataLayout) (r : AllocRange) :
    Option (Allocation Prov Extra × AllocResult (List Nat)) :=
  match a.mark_init r true with
  | none => none
  | some a1 =>
      match a1.provenance.clear pk r cx with
      | .error e => some (a1, .error e)
      | .ok pm =>
          if r.endOf ≤ a1.bytes.length then
            some ({ a1 with provenance := pm }, .ok (sliceBytes a1.bytes r.start r.size))
          else none

/-- `Allocation::read_scalar(cx, range, read_provenance)`.  Order of checks,
as in the source: (1) bail with `InvalidUninitBytes(None)` if anything in
the range is uninitialized; (2) decode the integer bits; (3) with
`read_provenance`, assert the range is pointer-sized (panic otherwise), use
an exact provenance entry if present, else — only when offsets are
addresses — join the byte-wise provenances; (4) without `read_provenance`,
strip provenance when offsets are addresses; (5) otherwise fail with
`ReadPointerAsBytes` unless the range carries no provenance at all. -/
def Allocation.read_scalar (a : Allocation Prov Extra) (pk : ProvKind Prov)
    (cx : DataLayout) (r : AllocRange) (read_provenance : Bool) :
    Option (AllocResult (Scalar Prov)) :=
  if (a.init_mask.is_range_initialized r).isOk = false then
    some (.error (.InvalidUninitBytes none))
  else
    match a.get_bytes_unchecked r with
    | none => none
    | some bytes =>
        if read_provenance then
          if r.size = cx.pointer_size then
            match a.provenance.get_ptr r.start with
            | some prov =>
                some (.ok (.ptr prov (read_target_uint cx.endian bytes)
                  cx.pointer_size))
            | none =>
                if pk.OFFSET_IS_ADDR then
                  match (List.range' 1 (r.size - 1)).foldl
                      (fun acc i => pk.join acc (a.provenance.get (r.start + i) cx))
                      (a.provenance.get r.start cx) with
                  | some p =>
                      some (.ok (.ptr p (read_target_uint cx.endian bytes)
                        cx.pointer_size))
                  | none =>
                      some (.ok (.int (read_target_uint cx.endian bytes)
                        cx.pointer_size))
                else
                  if a.provenance.range_empty r cx then
                    some (.ok (.int (read_target_uint cx.endian bytes) r.size))
                  else some (.error .ReadPointerAsBytes)
          else none
        else
          if pk.OFFSET_IS_ADDR then
            some (.ok (.int (read_target_uint cx.endian bytes) r.size))
          else
            if a.provenance.range_empty r cx then
              some (.ok (.int (read_target_uint cx.endian bytes) r.size))
            else some (.error .ReadPointerAsBytes)

/-- `Allocation::write_scalar(cx, range, val)`: asserts mutability (panic),
decomposes the scalar against `range.size` (`ScalarSizeMismatch` before any
mutation), writes the bit pattern through `get_bytes_mut` (which marks the
range initialized and clears overlapping provenance, possibly failing after
the mask update), and, for a pointer value, asserts the range is
pointer-sized and records the identity at `range.start`. -/
def Allocation.write_scalar (a : Allocation Prov Extra) (pk : ProvKind Prov)
    (cx : DataLayout) (r : AllocRange) (val : Scalar Prov) :
    Option (Allocation Prov Extra × AllocResult Unit) :=
  if a.mutability = Mutability.Mut then
    match val.to_bits_or_ptr_internal r.size with
    | none => none
    | some (.error e) => some (a, .error (.ScalarSizeMismatch e))
    | some (.ok bp) =>
        let bits := match bp with
          | .inl data => data
          | .inr (_, offset) => offset
        let prov? : Option Prov := match bp with
          | .inl _ => none
          | .inr (p, _) => some p
        match a.get_bytes_mut pk cx r with
        | none => none
        | some (a1, .error e) => some (a1, .error e)
        | some (a1, .ok _) =>
            let a2 := { a1 with
              bytes := writeBytes a1.bytes r.start (write_target_uint cx.endian r.size bits) }
            match prov? with
            | none => some (a2, .ok ())
            | some p =>
                if r.size = cx.pointer_size then
                  some ({ a2 with provenance := a2.provenance.insert_ptr r.start p }, .ok ())
                else none
  else none

/-- `Allocation::write_uninit(cx, range)`: marks the range uninitialized,
then clears overlapping provenance (the partial-overwrite error is returned
after the mask was already mutated). -/
def Allocation.write_uninit (a : Allocation Prov Extra) (pk : ProvKind Prov)
    (cx : DataLayout) (r : AllocRange) :
    Option (Allocation Prov Extra × AllocResult Unit) :=
  match a.mark_init r false with
  | none => none
  | some a1 =>
      match a1.provenance.clear pk r cx with
      | .error e => some (a1, .error e)
      | .ok pm => some ({ a1 with provenance := pm }, .ok ())

/-! ## Hashing for interning -/

/-- `MAX_BYTES_TO_HASH`. -/
def MAX_BYTES_TO_HASH : Nat := 64

/-- `MAX_HASHED_BUFFER_LEN`. -/
def MAX_HASHED_BUFFER_LEN : Nat := 2 * MAX_BYTES_TO_HASH

/-- The byte-buffer part of `impl Hash for Allocation`: buffers longer than
`MAX_HASHED_BUFFER_LEN` contribute their length, head and tail slices; short
buffers are hashed whole.  The value is the token stream fed to the hasher
(two equal streams hash equal under any deterministic hasher). -/
def hashBytesField (bytes : List Nat) : List Nat :=
  if bytes.length > MAX_HASHED_BUFFER_LEN then
    bytes.length :: (bytes.take MAX_BYTES_TO_HASH ++ bytes.drop (bytes.length - MAX_BYTES_TO_HASH))
  else bytes

/-- `impl hash::Hash for Allocation`: the partially-hashed byte buffer
followed by the remaining fields hashed as usual. -/
def Allocation.hashAlloc (a : Allocation AllocId Unit) : List Nat :=
  hashBytesField a.bytes
    ++ (a.provenance.ptrs.map fun e => [e.1, e.2.id]).flatten
    ++ a.init_mask.bits.map (fun b => if b then 1 else 0)
    ++ [a.align, if a.mutability = Mutability.Mut then 1 else 0]

/-! ## Derived predicates -/

/-- The invariant tying the two indexes together: every byte covered by a
provenance entry (the pointer-sized run starting at a provenance-map key) is
also marked initialized. -/
def provInitInv (P : Nat) (a : Allocation Prov Extra) : Prop :=
  ∀ e ∈ a.provenance.ptrs, ∀ i, i < P → a.init_mask.get (e.1 + i) = true

instance (P : Nat) (a : Allocation Prov Extra) : Decidable (provInitInv P a) := by
  unfold provInitInv
  infer_instance

/-! ## Lemmas: endianness packing -/

theorem writeLEBytes_length (n d : Nat) : (writeLEBytes n d).length = n := by
  induction n generalizing d with
  | zero => rfl
  | succ n ih => simp [writeLEBytes, ih]

theorem readLE_writeLE (n d : Nat) :
    readLEBytes (writeLEBytes n d) = d % 256 ^ n := by
  induction n generalizing d with
  | zero => simp [writeLEBytes, readLEBytes, Nat.mod_one]
  | succ n ih =>
      simp only [writeLEBytes, readLEBytes, ih]
      rw [Nat.pow_succ, Nat.mul_comm (256 ^ n) 256, Nat.mod_mul]

theorem write_target_uint_length (e : Endian) (n d : Nat) :
    (write_target_uint e n d).length = n := by
  cases e <;> simp [write_target_uint, writeLEBytes_length]

theorem read_write_target_uint (e : Endian) (n d : Nat) :
    read_target_uint e (write_target_uint e n d) = d % 2 ^ (8 * n) := by
  have h : (256 : Nat) ^ n = 2 ^ (8 * n) := by
    rw [show (256 : Nat) = 2 ^ 8 from rfl, ← Nat.pow_mul]
  cases e <;>
    simp [write_target_uint, read_target_uint, List.reverse_reverse,
      readLE_writeLE, h]

/-! ## Lemmas: raw byte buffers -/

theorem writeBytes_length (l new : List Nat) (s : Nat)
    (h : s + new.length ≤ l.length) :
    (writeBytes l s new).length = l.length := by
  simp only [writeBytes, List.length_append, List.length_take, List.length_drop]
  omega

theorem byteAt_writeBytes (l new : List Nat) (s i : Nat)
    (h : s + new.length ≤ l.length) :
    byteAt (writeBytes l s new) i =
      if s ≤ i ∧ i < s + new.length then byteAt new (i - s) else byteAt l i := by
  have hts : (l.take s).length = s := by
    simp only [List.length_take]; omega
  unfold byteAt writeBytes
  rw [List.append_assoc, List.getD_eq_getElem?_getD, List.getD_eq_getElem?_getD,
    List.getD_eq_getElem?_getD]
  rcases Nat.lt_or_ge i s with hi | hi
  · rw [if_neg (by omega)]
    rw [List.getElem?_append_left (by omega), List.getElem?_take_of_lt hi]
  · rw [List.getElem?_append_right (by omega), hts]
    rcases Nat.lt_or_ge (i - s) new.length with hj | hj
    · rw [if_pos (by omega)]
      rw [List.getElem?_append_left hj]
    · rw [if_neg (by omega)]
      rw [List.getElem?_append_right hj, List.getElem?_drop]
      congr 2
      omega

theorem sliceBytes_length (l : List Nat) (s n : Nat) (h : s + n ≤ l.length) :
    (sliceBytes l s n).length = n := by
  simp only [sliceBytes, List.length_take, List.length_drop]
  omega

theorem byteAt_sliceBytes (l : List Nat) (s n i : Nat) (hi : i < n) :
    byteAt (sliceBytes l s n) i = byteAt l (s + i) := by
  unfold byteAt sliceBytes
  rw [List.getD_eq_getElem?_getD, List.getD_eq_getElem?_getD,
    List.getElem?_take_of_lt hi, List.getElem?_drop]

theorem byteAt_eq_getD (l : List Nat) (i : Nat) : byteAt l i = l.getD i 0 := rfl

theorem list_ext_byteAt (l1 l2 : List Nat) (hlen : l1.length = l2.length)
    (h : ∀ i, i < l1.length → byteAt l1 i = byteAt l2 i) : l1 = l2 := by
  apply List.ext_getElem hlen
  intro i h1 h2
  have := h i h1
  simp only [byteAt, List.getD_eq_getElem?_getD, List.getElem?_eq_getElem h1,
    List.getElem?_eq_getElem h2, Option.getD_some] at this
  exact this

theorem sliceBytes_ext (l1 l2 : List Nat) (s1 s2 n : Nat)
    (h1 : s1 + n ≤ l1.length) (h2 : s2 + n ≤ l2.length)
    (hp : ∀ i, i < n → byteAt l1 (s1 + i) = byteAt l2 (s2 + i)) :
    sliceBytes l1 s1 n = sliceBytes l2 s2 n := by
  apply list_ext_byteAt
  · rw [sliceBytes_length l1 s1 n h1, sliceBytes_length l2 s2 n h2]
  · intro i hi
    rw [sliceBytes_length l1 s1 n h1] at hi
    rw [byteAt_sliceBytes l1 s1 n i hi, byteAt_sliceBytes l2 s2 n i hi]
    exact hp i hi

theorem sliceBytes_writeBytes_self (l new : List Nat) (s : Nat)
    (h : s + new.length ≤ l.length) :
    sliceBytes (writeBytes l s new) s new.length = new := by
  apply list_ext_byteAt
  · rw [sliceBytes_length _ s new.length (by rw [writeBytes_length l new s h]; exact h)]
  · intro i hi
    rw [sliceBytes_length _ s new.length (by rw [writeBytes_length l new s h]; exact h)] at hi
    rw [byteAt_sliceBytes _ s new.length i hi, byteAt_writeBytes l new s (s + i) h,
      if_pos (by omega)]
    congr 1
    omega

theorem sliceBytes_writeBytes_disjoint (l new : List Nat) (s s' n : Nat)
    (h : s + new.length ≤ l.length)
    (hd : s' + n ≤ s ∨ s + new.length ≤ s') :
    sliceBytes (writeBytes l s new) s' n = sliceBytes l s' n := by
  rcases le_or_lt (s' + n) (writeBytes l s new).length with hb | hb
  · apply sliceBytes_ext
    · exact hb
    · rw [writeBytes_length l new s h] at hb; exact hb
    · intro i hi
      rw [byteAt_writeBytes l new s (s' + i) h, if_neg (by omega)]
  · have hwl := writeBytes_length l new s h
    apply list_ext_byteAt
    · simp only [sliceBytes, List.length_take, List.length_drop, hwl]
    · intro i hi
      simp only [sliceBytes, List.length_take, List.length_drop, hwl] at hi
      rw [byteAt_sliceBytes _ s' n i (by omega), byteAt_sliceBytes l s' n i (by omega),
        byteAt_writeBytes l new s (s' + i) h, if_neg (by omega)]

/-! ## Lemmas: initialization mask -/

theorem setBits_length (bits : List Bool) (s n : Nat) (f : Bool) :
    (setBits bits s n f).length = bits.length := by
  induction bits generalizing s n with
  | nil => rfl
  | cons b bs ih =>
      match s, n with
      | 0, 0 => rfl
      | 0, n + 1 => simp [setBits, ih]
      | s + 1, n => simp [setBits, ih]

theorem getD_setBits (bits : List Bool) (s n : Nat) (f : Bool) (i : Nat) :
    (setBits bits s n f).getD i false =
      if s ≤ i ∧ i < s + n ∧ i < bits.length then f else bits.getD i false := by
  induction bits generalizing s n i with
  | nil => simp [setBits]
  | cons b bs ih =>
      match s, n with
      | 0, 0 => simp [setBits]
      | 0, n + 1 =>
          match i with
          | 0 => simp [setBits]
          | i + 1 =>
              simp only [setBits, List.getD_cons_succ, List.length_cons]
              rw [ih 0 n i]
              by_cases h1 : i < n ∧ i < bs.length
              · rw [if_pos (by omega), if_pos (by omega)]
              · rw [if_neg (by omega), if_neg (by omega)]
      | s + 1, n =>
          match i with
          | 0 => simp [setBits]
          | i + 1 =>
              simp only [setBits, List.getD_cons_succ, List.length_cons]
              rw [ih s n i]
              by_cases h1 : s ≤ i ∧ i < s + n ∧ i < bs.length
              · rw [if_pos (by omega), if_pos (by omega)]
              · rw [if_neg (by omega), if_neg (by omega)]

theorem InitMask.get_set_range (m : InitMask) (r : AllocRange) (f : Bool) (i : Nat) :
    (m.set_range r f).get i =
      if r.start ≤ i ∧ i < r.endOf ∧ i < m.bits.length then f else m.get i := by
  simp only [InitMask.set_range, InitMask.get, AllocRange.endOf]
  exact getD_setBits m.bits r.start r.size f i

theorem InitMask.set_range_length (m : InitMask) (r : AllocRange) (f : Bool) :
    (m.set_range r f).bits.length = m.bits.length :=
  setBits_length m.bits r.start r.size f

theorem InitMask.get_new (size : Nat) (state : Bool) (i : Nat) :
    (InitMask.new size state).get i = if i < size then state else false := by
  simp only [InitMask.new, InitMask.get]
  by_cases h : i < size
  · rw [if_pos h, List.getD_eq_getElem?_getD, List.getElem?_replicate,
      if_pos h, Option.getD_some]
  · rw [if_neg h, List.getD_eq_getElem?_getD, List.getElem?_replicate,
      if_neg h, Option.getD_none]

theorem range'_find?_eq_none (s n : Nat) (p : Nat → Bool) :
    (List.range' s n).find? p = none ↔ ∀ i, s ≤ i → i < s + n → p i = false := by
  rw [List.find?_eq_none]
  constructor
  · intro h i h1 h2
    have : p i ≠ true := h i (by rw [List.mem_range']; exact ⟨i - s, by omega, by omega⟩)
    simpa using this
  · intro h x hx
    rw [List.mem_range'] at hx
    obtain ⟨i, hi, rfl⟩ := hx
    simp [h (s + i) (by omega) (by omega)]

theorem range'_find?_eq_some (s n : Nat) (p : Nat → Bool) (j : Nat)
    (h : (List.range' s n).find? p = some j) :
    s ≤ j ∧ j < s + n ∧ p j = true ∧ ∀ i, s ≤ i → i < j → p i = false := by
  induction n generalizing s with
  | zero => simp [List.range'] at h
  | succ n ih =>
      rw [List.range'_succ] at h
      rw [List.find?_cons] at h
      cases hp : p s with
      | true =>
          simp only [hp] at h
          cases h
          exact ⟨Nat.le_refl _, by omega, hp, fun i h1 h2 => by omega⟩
      | false =>
          simp only [hp] at h
          obtain ⟨h1, h2, h3, h4⟩ := ih (s + 1) h
          refine ⟨by omega, by omega, h3, fun i hi1 hi2 => ?_⟩
          rcases Nat.eq_or_lt_of_le hi1 with rfl | hlt
          · exact hp
          · exact h4 i (by omega) hi2

theorem findBit_eq_none_iff (m : InitMask) (start stop : Nat) (t : Bool) :
    m.findBit start stop t = none ↔
      ∀ i, start ≤ i → i < stop → m.get i ≠ t := by
  unfold InitMask.findBit
  rw [range'_find?_eq_none]
  constructor
  · intro h i h1 h2
    have := h i h1 (by omega)
    simp only [beq_eq_false_iff_ne, ne_eq] at this
    exact this
  · intro h i h1 h2
    simp only [beq_eq_false_iff_ne, ne_eq]
    exact h i h1 (by omega)

theorem findBit_eq_some (m : InitMask) (start stop : Nat) (t : Bool) (j : Nat)
    (h : m.findBit start stop t = some j) :
    start ≤ j ∧ j < stop ∧ m.get j = t ∧
      ∀ i, start ≤ i → i < j → m.get i ≠ t := by
  unfold InitMask.findBit at h
  obtain ⟨h1, h2, h3, h4⟩ := range'_find?_eq_some start (stop - start) _ j h
  simp only [beq_iff_eq] at h3
  refine ⟨h1, by omega, h3, fun i hi1 hi2 => ?_⟩
  have := h4 i hi1 hi2
  simp only [beq_eq_false_iff_ne, ne_eq] at this
  exact this

theorem findBit_isSome_of (m : InitMask) (start stop : Nat) (t : Bool) (i : Nat)
    (h1 : start ≤ i) (h2 : i < stop) (h3 : m.get i = t) :
    ∃ j, m.findBit start stop t = some j := by
  cases hf : m.findBit start stop t with
  | some j => exact ⟨j, rfl⟩
  | none =>
      rw [findBit_eq_none_iff] at hf
      exact absurd h3 (hf i h1 h2)

theorem is_range_initialized_ok_iff (m : InitMask) (r : AllocRange) :
    m.is_range_initialized r = .ok () ↔
      ∀ i, r.start ≤ i → i < r.endOf → m.get i = true := by
  unfold InitMask.is_range_initialized
  have he : r.endOf = r.start + r.size := rfl
  cases hf : m.findBit r.start (r.start + r.size) false with
  | none =>
      rw [findBit_eq_none_iff] at hf
      constructor
      · intro _ i h1 h2
        have := hf i h1 (by omega)
        simpa using this
      · intro _
        rfl
  | some j =>
      obtain ⟨h1, h2, h3, _⟩ := findBit_eq_some m _ _ _ _ hf
      constructor
      · intro h
        cases h
      · intro hall
        have hj := hall j h1 (by omega)
        rw [h3] at hj
        cases hj

theorem is_range_initialized_isOk_iff (m : InitMask) (r : AllocRange) :
    (m.is_range_initialized r).isOk = true ↔
      ∀ i, r.start ≤ i → i < r.endOf → m.get i = true := by
  rw [← is_range_initialized_ok_iff]
  cases h : m.is_range_initialized r with
  | ok u => cases u; simp [Except.isOk, Except.toBool]
  | error e => simp [Except.isOk, Except.toBool]

/-- Characterization of the failure case of `is_range_initialized`: the
returned sub-range is the first contiguous uninitialized run inside the
queried range. -/
theorem is_range_initialized_error (m : InitMask) (r : AllocRange) (u : AllocRange)
    (h : m.is_range_initialized r = .error u) :
    r.start ≤ u.start ∧ u.endOf ≤ r.endOf ∧ 0 < u.size ∧
      m.get u.start = false ∧
      (∀ i, r.start ≤ i → i < u.start → m.get i = true) ∧
      (∀ i, u.start ≤ i → i < u.endOf → m.get i = false) ∧
      (u.endOf = r.endOf ∨ m.get u.endOf = true) := by
  unfold InitMask.is_range_initialized at h
  cases hf : m.findBit r.start (r.start + r.size) false with
  | none => rw [hf] at h; cases h
  | some j =>
      rw [hf] at h
      obtain ⟨h1, h2, h3, h4⟩ := findBit_eq_some m _ _ _ _ hf
      cases h
      cases hg : m.findBit j (r.start + r.size) true with
      | none =>
          rw [findBit_eq_none_iff] at hg
          dsimp only [Option.getD_none, AllocRange.endOf]
          refine ⟨h1, by omega, by omega, h3, ?_, ?_, ?_⟩
          · intro i hi1 hi2
            have := h4 i hi1 hi2
            simpa using this
          · intro i hi1 hi2
            have := hg i hi1 (by omega)
            simpa using this
          · left; omega
      | some k =>
          obtain ⟨g1, g2, g3, g4⟩ := findBit_eq_some m _ _ _ _ hg
          have hjk : j < k := by
            rcases Nat.eq_or_lt_of_le g1 with rfl | hlt
            · rw [h3] at g3; cases g3
            · exact hlt
          dsimp only [Option.getD_some, AllocRange.endOf]
          refine ⟨h1, by omega, by omega, h3, ?_, ?_, ?_⟩
          · intro i hi1 hi2
            have := h4 i hi1 hi2
            simpa using this
          · intro i hi1 hi2
            have := g4 i hi1 (by omega)
            simpa using this
          · right
            have hk : j + (k - j) = k := by omega
            rw [hk]
            exact g3

/-! ## Lemmas: provenance map -/

theorem find?_insertSorted (l : List (Nat × Prov)) (o : Nat) (p : Prov) :
    (insertSorted l o p).find? (fun e => e.1 == o) = some (o, p) := by
  induction l with
  | nil => simp [insertSorted]
  | cons e rest ih =>
      unfold insertSorted
      by_cases h1 : o < e.1
      · rw [if_pos h1]
        simp [List.find?_cons]
      · rw [if_neg h1]
        by_cases h2 : o = e.1
        · rw [if_pos h2]
          simp [List.find?_cons]
        · rw [if_neg h2]
          rw [List.find?_cons]
          have : (e.1 == o) = false := by
            simp only [beq_eq_false_iff_ne, ne_eq]
            omega
          rw [this]
          exact ih

theorem mem_insertSorted (l : List (Nat × Prov)) (o : Nat) (p : Prov)
    (e : Nat × Prov) : e ∈ insertSorted l o p → e = (o, p) ∨ e ∈ l := by
  induction l with
  | nil =>
      intro h
      simpa [insertSorted] using h
  | cons e2 rest ih =>
      intro h
      unfold insertSorted at h
      by_cases h1 : o < e2.1
      · rw [if_pos h1] at h
        rw [List.mem_cons] at h
        rcases h with h | h
        · left; exact h
        · right; exact h
      · rw [if_neg h1] at h
        by_cases h2 : o = e2.1
        · rw [if_pos h2] at h
          rw [List.mem_cons] at h
          rcases h with h | h
          · left; exact h
          · right; exact List.mem_cons_of_mem _ h
        · rw [if_neg h2] at h
          rw [List.mem_cons] at h
          rcases h with h | h
          · right
            rw [h]
            exact List.mem_cons_self _ _
          · rcases ih h with h3 | h3
            · left; exact h3
            · right; exact List.mem_cons_of_mem _ h3

theorem range_empty_iff (m : ProvenanceMap Prov) (r : AllocRange) (cx : DataLayout) :
    m.range_empty r cx = true ↔
      ∀ e ∈ m.ptrs, overlapsRange cx.pointer_size e.1 r = false := by
  unfold ProvenanceMap.range_empty
  rw [List.all_eq_true]
  constructor
  · intro h e he
    have := h e he
    simpa using this
  · intro h e he
    simp [h e he]

theorem overlapsRange_true_iff (P o : Nat) (r : AllocRange) :
    overlapsRange P o r = true ↔ o < r.endOf ∧ r.start < o + P := by
  unfold overlapsRange
  simp

theorem overlapsRange_false_iff (P o : Nat) (r : AllocRange) :
    overlapsRange P o r = false ↔ r.endOf ≤ o ∨ o + P ≤ r.start := by
  unfold overlapsRange
  simp only [Bool.and_eq_false_iff, decide_eq_false_iff_not, not_lt]

/-- Shape of a successful `clear`. -/
theorem clear_ok (m m' : ProvenanceMap Prov) (pk : ProvKind Prov) (r : AllocRange)
    (cx : DataLayout) (h : m.clear pk r cx = .ok m') :
    (r.size = 0 ∧ m' = m) ∨
      m' = ⟨m.ptrs.filter fun e2 => !(overlapsRange cx.pointer_size e2.1 r)⟩ := by
  unfold ProvenanceMap.clear at h
  by_cases h0 : r.size = 0
  · rw [if_pos h0] at h
    cases h
    left; exact ⟨h0, rfl⟩
  · rw [if_neg h0] at h
    by_cases ha : pk.OFFSET_IS_ADDR
    · rw [if_pos ha] at h
      cases h
      right; rfl
    · rw [if_neg ha] at h
      cases hf : m.ptrs.find? fun e =>
          overlapsRange cx.pointer_size e.1 r &&
          !(containedInRange cx.pointer_size e.1 r) with
      | none =>
          rw [hf] at h
          cases h
          right; rfl
      | some e =>
          rw [hf] at h
          cases h

/-- `clear` never fails when offsets are addresses (destruction allowed). -/
theorem clear_of_offset_is_addr (m : ProvenanceMap Prov) (pk : ProvKind Prov)
    (r : AllocRange) (cx : DataLayout) (ha : pk.OFFSET_IS_ADDR = true)
    (h0 : r.size ≠ 0) :
    m.clear pk r cx =
      .ok ⟨m.ptrs.filter fun e2 => !(overlapsRange cx.pointer_size e2.1 r)⟩ := by
  unfold ProvenanceMap.clear
  rw [if_neg h0, if_pos ha]

/-- Shape of a failing `clear`: only possible when offsets are not addresses
and some entry straddles the range's boundary; the error carries that
entry's offset. -/
theorem clear_error (m : ProvenanceMap Prov) (pk : ProvKind Prov) (r : AllocRange)
    (cx : DataLayout) (err : AllocError) (h : m.clear pk r cx = .error err) :
    pk.OFFSET_IS_ADDR = false ∧ r.size ≠ 0 ∧
      ∃ e ∈ m.ptrs, overlapsRange cx.pointer_size e.1 r = true ∧
        containedInRange cx.pointer_size e.1 r = false ∧
        err = .PartialPointerOverwrite e.1 := by
  unfold ProvenanceMap.clear at h
  by_cases h0 : r.size = 0
  · rw [if_pos h0] at h; cases h
  · rw [if_neg h0] at h
    by_cases ha : pk.OFFSET_IS_ADDR
    · rw [if_pos ha] at h; cases h
    · rw [if_neg ha] at h
      cases hf : m.ptrs.find? fun e =>
          overlapsRange cx.pointer_size e.1 r &&
          !(containedInRange cx.pointer_size e.1 r) with
      | none => rw [hf] at h; cases h
      | some e =>
          rw [hf] at h
          cases h
          have hmem := List.mem_of_find?_eq_some hf
          have hprop := List.find?_some hf
          simp only [Bool.and_eq_true, Bool.not_eq_true'] at hprop
          refine ⟨by simpa using ha, h0, e, hmem, hprop.1, hprop.2, rfl⟩

theorem get_ptr_eq_none_iff (m : ProvenanceMap Prov) (o : Nat) :
    m.get_ptr o = none ↔ ∀ e ∈ m.ptrs, e.1 ≠ o := by
  unfold ProvenanceMap.get_ptr
  rw [Option.map_eq_none', List.find?_eq_none]
  constructor
  · intro h e he
    have := h e he
    simpa using this
  · intro h e he
    simp [h e he]

theorem get_eq_none_iff (m : ProvenanceMap Prov) (o : Nat) (cx : DataLayout) :
    m.get o cx = none ↔ ∀ e ∈ m.ptrs, ¬(e.1 ≤ o ∧ o < e.1 + cx.pointer_size) := by
  unfold ProvenanceMap.get
  rw [Option.map_eq_none', List.find?_eq_none]
  constructor
  · intro h e he
    have := h e he
    simpa using this
  · intro h e he
    have := h e he
    simp only [Bool.and_eq_true, decide_eq_true_eq, not_and, not_lt] at this ⊢
    by_cases h1 : e.1 ≤ o
    · simp [h1, this h1]
    · simp [h1]

/-- Folding the machine join over byte-wise lookups that all come up empty
yields no provenance. -/
theorem foldl_machJoin_none (g : Nat → Option MachProv) (l : List Nat)
    (h : ∀ i ∈ l, g i = none) :
    l.foldl (fun acc i => machKind.join acc (g i)) none = none := by
  induction l with
  | nil => rfl
  | cons x xs ih =>
      rw [List.foldl_cons, h x (List.mem_cons_self _ _)]
      exact ih fun i hi => h i (List.mem_cons_of_mem _ hi)

/-! ## Lemmas: operations -/

theorem mark_init_of_pos (a : Allocation Prov Extra) (r : AllocRange) (b : Bool)
    (hmut : a.mutability = Mutability.Mut) (hsz : r.size ≠ 0) :
    a.mark_init r b = some { a with init_mask := a.init_mask.set_range r b } := by
  unfold Allocation.mark_init
  rw [if_neg hsz, if_pos hmut]

theorem mark_init_of_zero (a : Allocation Prov Extra) (r : AllocRange) (b : Bool)
    (hsz : r.size = 0) : a.mark_init r b = some a := by
  unfold Allocation.mark_init
  rw [if_pos hsz]

theorem get_bytes_mut_of_clear_error (a : Allocation Prov Extra) (pk : ProvKind Prov)
    (cx : DataLayout) (r : AllocRange) (err : AllocError)
    (hmut : a.mutability = Mutability.Mut) (hsz : r.size ≠ 0)
    (hclear : a.provenance.clear pk r cx = .error err) :
    a.get_bytes_mut pk cx r =
      some ({ a with init_mask := a.init_mask.set_range r true }, .error err) := by
  unfold Allocation.get_bytes_mut
  rw [mark_init_of_pos a r true hmut hsz]
  dsimp only
  rw [hclear]

theorem get_bytes_mut_ptr_of_clear_error (a : Allocation Prov Extra)
    (pk : ProvKind Prov) (cx : DataLayout) (r : AllocRange) (err : AllocError)
    (hmut : a.mutability = Mutability.Mut) (hsz : r.size ≠ 0)
    (hclear : a.provenance.clear pk r cx = .error err) :
    a.get_bytes_mut_ptr pk cx r =
      some ({ a with init_mask := a.init_mask.set_range r true }, .error err) := by
  unfold Allocation.get_bytes_mut_ptr
  rw [mark_init_of_pos a r true hmut hsz]
  dsimp only
  rw [hclear]

theorem write_uninit_of_clear_error (a : Allocation Prov Extra) (pk : ProvKind Prov)
    (cx : DataLayout) (r : AllocRange) (err : AllocError)
    (hmut : a.mutability = Mutability.Mut) (hsz : r.size ≠ 0)
    (hclear : a.provenance.clear pk r cx = .error err) :
    a.write_uninit pk cx r =
      some ({ a with init_mask := a.init_mask.set_range r false }, .error err) := by
  unfold Allocation.write_uninit
  rw [mark_init_of_pos a r false hmut hsz]
  dsimp only
  rw [hclear]

theorem write_scalar_int_of_clear_error (a : Allocation Prov Extra)
    (pk : ProvKind Prov) (cx : DataLayout) (r : AllocRange) (err : AllocError)
    (data : Nat)
    (hmut : a.mutability = Mutability.Mut) (hsz : r.size ≠ 0)
    (hclear : a.provenance.clear pk r cx = .error err) :
    a.write_scalar pk cx r (.int data r.size) =
      some ({ a with init_mask := a.init_mask.set_range r true }, .error err) := by
  unfold Allocation.write_scalar
  rw [if_pos hmut]
  have hbp : (Scalar.int data r.size : Scalar Prov).to_bits_or_ptr_internal r.size =
      some (.ok (.inl data)) := by
    unfold Scalar.to_bits_or_ptr_internal
    rw [if_neg hsz]
    dsimp only
    rw [if_pos rfl]
  rw [hbp]
  dsimp only
  rw [get_bytes_mut_of_clear_error a pk cx r err hmut hsz hclear]

theorem some_pair_inj {α β : Type} {x1 x2 : α} {y1 y2 : β}
    (h : some (x1, y1) = some (x2, y2)) : x1 = x2 ∧ y1 = y2 := by
  have hp := Option.some.inj h
  exact ⟨congrArg Prod.fst hp, congrArg Prod.snd hp⟩

/-- Characterization of a successful `get_bytes_mut`. -/
theorem get_bytes_mut_ok_shape (a a1 : Allocation Prov Extra) (pk : ProvKind Prov)
    (cx : DataLayout) (r : AllocRange) (bs : List Nat)
    (h : a.get_bytes_mut pk cx r = some (a1, .ok bs)) :
    r.endOf ≤ a.bytes.length ∧ a1.bytes = a.bytes ∧
    bs = sliceBytes a.bytes r.start r.size ∧
    a1.align = a.align ∧ a1.mutability = a.mutability ∧ a1.extra = a.extra ∧
    ((r.size = 0 ∧ a1 = a) ∨
     (r.size ≠ 0 ∧ a.mutability = Mutability.Mut ∧
      a1.init_mask = a.init_mask.set_range r true ∧
      a1.provenance =
        ⟨a.provenance.ptrs.filter fun e2 => !(overlapsRange cx.pointer_size e2.1 r)⟩)) := by
  unfold Allocation.get_bytes_mut at h
  by_cases hsz : r.size = 0
  · rw [mark_init_of_zero a r true hsz] at h
    dsimp only at h
    rw [show a.provenance.clear pk r cx = .ok a.provenance by
      unfold ProvenanceMap.clear; rw [if_pos hsz]] at h
    dsimp only at h
    by_cases hb : r.endOf ≤ a.bytes.length
    · rw [if_pos hb] at h
      obtain ⟨h1, h2⟩ := some_pair_inj h
      have hbs := (Except.ok.inj h2).symm
      refine ⟨hb, by rw [← h1], hbs, by rw [← h1], by rw [← h1], by rw [← h1], ?_⟩
      left
      exact ⟨hsz, by rw [← h1]⟩
    · rw [if_neg hb] at h
      cases h
  · by_cases hmut : a.mutability = Mutability.Mut
    · rw [mark_init_of_pos a r true hmut hsz] at h
      dsimp only at h
      cases hc : ({ a with init_mask := a.init_mask.set_range r true } :
          Allocation Prov Extra).provenance.clear pk r cx with
      | error e => rw [hc] at h; dsimp only at h; exact Except.noConfusion (some_pair_inj h).2
      | ok pm =>
          rw [hc] at h
          dsimp only at h
          by_cases hb : r.endOf ≤ a.bytes.length
          · rw [if_pos (show r.endOf ≤ ({ a with init_mask := a.init_mask.set_range r true } :
                Allocation Prov Extra).bytes.length from hb)] at h
            obtain ⟨h1, h2⟩ := some_pair_inj h
            have hbs := (Except.ok.inj h2).symm
            rcases clear_ok _ _ pk r cx hc with ⟨h0, _⟩ | hfil
            · exact absurd h0 hsz
            · refine ⟨hb, by rw [← h1], hbs, by rw [← h1], by rw [← h1], by rw [← h1], ?_⟩
              right
              refine ⟨hsz, hmut, by rw [← h1], by rw [← h1]; exact hfil⟩
          · rw [if_neg (show ¬(r.endOf ≤ ({ a with init_mask := a.init_mask.set_range r true } :
                Allocation Prov Extra).bytes.length) from hb)] at h
            cases h
    · rw [show a.mark_init r true = none by
        unfold Allocation.mark_init; rw [if_neg hsz, if_neg hmut]] at h
      cases h

/-- Characterization of a successful `write_uninit`. -/
theorem write_uninit_ok_shape (a a1 : Allocation Prov Extra) (pk : ProvKind Prov)
    (cx : DataLayout) (r : AllocRange)
    (h : a.write_uninit pk cx r = some (a1, .ok ())) :
    a1.bytes = a.bytes ∧
    a1.align = a.align ∧ a1.mutability = a.mutability ∧ a1.extra = a.extra ∧
    ((r.size = 0 ∧ a1 = a) ∨
     (r.size ≠ 0 ∧ a.mutability = Mutability.Mut ∧
      a1.init_mask = a.init_mask.set_range r false ∧
      a1.provenance =
        ⟨a.provenance.ptrs.filter fun e2 => !(overlapsRange cx.pointer_size e2.1 r)⟩)) := by
  unfold Allocation.write_uninit at h
  by_cases hsz : r.size = 0
  · rw [mark_init_of_zero a r false hsz] at h
    dsimp only at h
    rw [show a.provenance.clear pk r cx = .ok a.provenance by
      unfold ProvenanceMap.clear; rw [if_pos hsz]] at h
    dsimp only at h
    obtain ⟨h1, _⟩ := some_pair_inj h
    refine ⟨by rw [← h1], by rw [← h1], by rw [← h1], by rw [← h1], ?_⟩
    left
    exact ⟨hsz, by rw [← h1]⟩
  · by_cases hmut : a.mutability = Mutability.Mut
    · rw [mark_init_of_pos a r false hmut hsz] at h
      dsimp only at h
      cases hc : ({ a with init_mask := a.init_mask.set_range r false } :
          Allocation Prov Extra).provenance.clear pk r cx with
      | error e => rw [hc] at h; dsimp only at h; exact Except.noConfusion (some_pair_inj h).2
      | ok pm =>
          rw [hc] at h
          dsimp only at h
          obtain ⟨h1, _⟩ := some_pair_inj h
          rcases clear_ok _ _ pk r cx hc with ⟨h0, _⟩ | hfil
          · exact absurd h0 hsz
          · refine ⟨by rw [← h1], by rw [← h1], by rw [← h1], by rw [← h1], ?_⟩
            right
            exact ⟨hsz, hmut, by rw [← h1], by rw [← h1]; exact hfil⟩
    · rw [show a.mark_init r false = none by
        unfold Allocation.mark_init; rw [if_neg hsz, if_neg hmut]] at h
      cases h

/-- Characterization of a successful `write_scalar` of an integer scalar. -/
theorem write_scalar_int_ok_shape (a a1 : Allocation Prov Extra) (pk : ProvKind Prov)
    (cx : DataLayout) (r : AllocRange) (data s : Nat)
    (h : a.write_scalar pk cx r (.int data s) = some (a1, .ok ())) :
    s = r.size ∧ r.size ≠ 0 ∧ a.mutability = Mutability.Mut ∧
    r.endOf ≤ a.bytes.length ∧
    a1 = { a with
      bytes := writeBytes a.bytes r.start (write_target_uint cx.endian r.size data),
      init_mask := a.init_mask.set_range r true,
      provenance :=
        ⟨a.provenance.ptrs.filter fun e2 => !(overlapsRange cx.pointer_size e2.1 r)⟩ } := by
  unfold Allocation.write_scalar at h
  by_cases hmut : a.mutability = Mutability.Mut
  · rw [if_pos hmut] at h
    by_cases hsz : r.size = 0
    · rw [show (Scalar.int data s : Scalar Prov).to_bits_or_ptr_internal r.size = none by
        unfold Scalar.to_bits_or_ptr_internal; rw [if_pos hsz]] at h
      cases h
    · by_cases hs : s = r.size
      · rw [show (Scalar.int data s : Scalar Prov).to_bits_or_ptr_internal r.size =
            some (.ok (.inl data)) by
          unfold Scalar.to_bits_or_ptr_internal
          rw [if_neg hsz]
          dsimp only
          rw [if_pos hs]] at h
        dsimp only at h
        cases hg : a.get_bytes_mut pk cx r with
        | none => rw [hg] at h; cases h
        | some p =>
            obtain ⟨a2, res⟩ := p
            cases res with
            | error e => rw [hg] at h; dsimp only at h; exact Except.noConfusion (some_pair_inj h).2
            | ok bs =>
                rw [hg] at h
                dsimp only at h
                obtain ⟨h1, _⟩ := some_pair_inj h
                obtain ⟨hb, hbytes, _, hal, hmu, hex, hsh⟩ :=
                  get_bytes_mut_ok_shape a a2 pk cx r bs hg
                rcases hsh with ⟨h0, _⟩ | ⟨_, _, hmask, hprov⟩
                · exact absurd h0 hsz
                · refine ⟨hs, hsz, hmut, hb, ?_⟩
                  rw [← h1]
                  simp only [Allocation.mk.injEq]
                  exact ⟨by rw [hbytes], hprov, hmask, hal, hmu, hex⟩
      · rw [show (Scalar.int data s : Scalar Prov).to_bits_or_ptr_internal r.size =
            some (.error ⟨r.size, s⟩) by
          unfold Scalar.to_bits_or_ptr_internal
          rw [if_neg hsz]
          dsimp only
          rw [if_neg hs]] at h
        dsimp only at h
        exact Except.noConfusion (some_pair_inj h).2
  · rw [if_neg hmut] at h
    cases h

/-- Characterization of a successful `write_scalar` of a pointer scalar. -/
theorem write_scalar_ptr_ok_shape (a a1 : Allocation Prov Extra) (pk : ProvKind Prov)
    (cx : DataLayout) (r : AllocRange) (p : Prov) (off s : Nat)
    (h : a.write_scalar pk cx r (.ptr p off s) = some (a1, .ok ())) :
    s = r.size ∧ r.size ≠ 0 ∧ r.size = cx.pointer_size ∧
    a.mutability = Mutability.Mut ∧ r.endOf ≤ a.bytes.length ∧
    a1 = { a with
      bytes := writeBytes a.bytes r.start (write_target_uint cx.endian r.size off),
      init_mask := a.init_mask.set_range r true,
      provenance := ⟨insertSorted
        (a.provenance.ptrs.filter fun e2 => !(overlapsRange cx.pointer_size e2.1 r))
        r.start p⟩ } := by
  unfold Allocation.write_scalar at h
  by_cases hmut : a.mutability = Mutability.Mut
  · rw [if_pos hmut] at h
    by_cases hsz : r.size = 0
    · rw [show (Scalar.ptr p off s).to_bits_or_ptr_internal r.size = none by
        unfold Scalar.to_bits_or_ptr_internal; rw [if_pos hsz]] at h
      cases h
    · by_cases hs : s = r.size
      · rw [show (Scalar.ptr p off s).to_bits_or_ptr_internal r.size =
            some (.ok (.inr (p, off))) by
          unfold Scalar.to_bits_or_ptr_internal
          rw [if_neg hsz]
          dsimp only
          rw [if_pos hs]] at h
        dsimp only at h
        cases hg : a.get_bytes_mut pk cx r with
        | none => rw [hg] at h; cases h
        | some pr =>
            obtain ⟨a2, res⟩ := pr
            cases res with
            | error e => rw [hg] at h; dsimp only at h; exact Except.noConfusion (some_pair_inj h).2
            | ok bs =>
                rw [hg] at h
                dsimp only at h
                by_cases hp : r.size = cx.pointer_size
                · rw [if_pos hp] at h
                  obtain ⟨h1, _⟩ := some_pair_inj h
                  obtain ⟨hb, hbytes, _, hal, hmu, hex, hsh⟩ :=
                    get_bytes_mut_ok_shape a a2 pk cx r bs hg
                  rcases hsh with ⟨h0, _⟩ | ⟨_, _, hmask, hprov⟩
                  · exact absurd h0 hsz
                  · refine ⟨hs, hsz, hp, hmut, hb, ?_⟩
                    rw [← h1]
                    simp only [Allocation.mk.injEq]
                    refine ⟨by rw [hbytes], ?_, hmask, hal, hmu, hex⟩
                    unfold ProvenanceMap.insert_ptr
                    rw [hprov]
                · rw [if_neg hp] at h
                  cases h
      · rw [show (Scalar.ptr p off s).to_bits_or_ptr_internal r.size =
            some (.error ⟨r.size, s⟩) by
          unfold Scalar.to_bits_or_ptr_internal
          rw [if_neg hsz]
          dsimp only
          rw [if_neg hs]] at h
        dsimp only at h
        exact Except.noConfusion (some_pair_inj h).2
  · rw [if_neg hmut] at h
    cases h

theorem adjustLoop_ok_map_fst (cx : DataLayout)
    (f : AllocId × Nat → Except Err (Prov × Nat)) :
    ∀ (l : List (Nat × AllocId)) (bytes bytes2 : List Nat)
      (np : List (Nat × Prov)),
      adjustLoop cx f l bytes = some (.ok (bytes2, np)) →
      np.map Prod.fst = l.map Prod.fst := by
  intro l
  induction l with
  | nil =>
      intro bytes bytes2 np h
      unfold adjustLoop at h
      have hq := Except.ok.inj (Option.some.inj h)
      have hnp : ([] : List (Nat × Prov)) = np := congrArg Prod.snd hq
      rw [← hnp]
      rfl
  | cons e rest ih =>
      intro bytes bytes2 np h
      obtain ⟨offset, alloc_id⟩ := e
      unfold adjustLoop at h
      by_cases hb : offset + cx.pointer_size ≤ bytes.length
      · rw [if_pos hb] at h
        cases hf : f (alloc_id, read_target_uint cx.endian
            (sliceBytes bytes offset cx.pointer_size)) with
        | error e2 =>
            rw [hf] at h
            dsimp only at h
            exact absurd (Option.some.inj h) (by intro hq; cases hq)
        | ok q =>
            obtain ⟨ptr_prov, ptr_offset⟩ := q
            rw [hf] at h
            dsimp only at h
            cases hrec : adjustLoop cx f rest
                (writeBytes bytes offset
                  (write_target_uint cx.endian cx.pointer_size ptr_offset)) with
            | none => rw [hrec] at h; cases h
            | some res =>
                cases res with
                | error e3 =>
                    rw [hrec] at h
                    dsimp only at h
                    exact absurd (Option.some.inj h) (by intro hq; cases hq)
                | ok pr =>
                    obtain ⟨bytes3, np3⟩ := pr
                    rw [hrec] at h
                    dsimp only at h
                    have hq := Except.ok.inj (Option.some.inj h)
                    have hnp := congrArg Prod.snd hq
                    dsimp only at hnp
                    rw [← hnp, List.map_cons, List.map_cons,
                      ih _ _ _ hrec]
      · rw [if_neg hb] at h
        cases h

/-- Shape of a successful `adjust_from_tcx`: the initialization mask,
alignment and mutability are carried over, and the provenance entries keep
exactly the original offsets. -/
theorem adjust_from_tcx_ok_shape (a : Allocation AllocId Unit) (cx : DataLayout)
    (ex : Extra) (f : AllocId × Nat → Except Err (Prov × Nat))
    (b : Allocation Prov Extra)
    (h : a.adjust_from_tcx cx ex f = some (.ok b)) :
    b.init_mask = a.init_mask ∧ b.align = a.align ∧
    b.mutability = a.mutability ∧
    b.provenance.ptrs.map Prod.fst = a.provenance.ptrs.map Prod.fst := by
  unfold Allocation.adjust_from_tcx at h
  cases hl : adjustLoop cx f a.provenance.ptrs a.bytes with
  | none => rw [hl] at h; cases h
  | some res =>
      cases res with
      | error e =>
          rw [hl] at h
          dsimp only at h
          exact absurd (Option.some.inj h) (by intro hq; cases hq)
      | ok pr =>
          obtain ⟨bytes2, np⟩ := pr
          rw [hl] at h
          dsimp only at h
          have hb := Except.ok.inj (Option.some.inj h)
          rw [← hb]
          exact ⟨rfl, rfl, rfl, adjustLoop_ok_map_fst cx f _ _ _ _ hl⟩

/-! ## Claim C7: subrange composition -/

/-- C7: for all ranges `outer`, `inner`, `innermost` with each nested range
within its parent's bounds, `outer.subrange(inner).subrange(innermost)`
equals `outer.subrange({start := inner.start + innermost.start,
size := innermost.size})` (and both are defined); and for any nested range
whose end exceeds its parent's bound, `subrange` rejects (panics on the
failed assertion) rather than returning a range. -/
theorem C7_subrange_composition (outer inner innermost : AllocRange)
    (h1 : inner.endOf ≤ outer.size) (h2 : innermost.endOf ≤ inner.size) :
    ((outer.subrange inner).bind fun mid => mid.subrange innermost) =
        outer.subrange (alloc_range (inner.start + innermost.start) innermost.size) ∧
    ((outer.subrange inner).bind fun mid => mid.subrange innermost) =
        some (alloc_range (outer.start + inner.start + innermost.start) innermost.size) ∧
    (∀ parent sub : AllocRange, parent.size < sub.endOf →
      parent.subrange sub = none) := by
  dsimp only [AllocRange.endOf] at h1 h2
  refine ⟨?_, ?_, ?_⟩
  · unfold AllocRange.subrange alloc_range
    dsimp only [AllocRange.endOf]
    rw [if_pos (by omega)]
    rw [Option.some_bind]
    dsimp only
    rw [if_pos (by omega), if_pos (by omega)]
    rw [Nat.add_assoc]
  · unfold AllocRange.subrange alloc_range
    dsimp only [AllocRange.endOf]
    rw [if_pos (by omega)]
    rw [Option.some_bind]
    dsimp only
    rw [if_pos (by omega)]
  · intro parent sub h
    unfold AllocRange.subrange alloc_range
    dsimp only [AllocRange.endOf] at h ⊢
    rw [if_neg (by omega)]

/-- Witness for C7 at concrete ranges. -/
theorem C7_subrange_composition_witness :
    (((alloc_range 2 10).subrange (alloc_range 1 5)).bind
        fun mid => mid.subrange (alloc_range 2 2)) =
      (alloc_range 2 10).subrange (alloc_range 3 2) ∧
    (alloc_range 0 4).subrange (alloc_range 3 2) = none := by
  refine ⟨(C7_subrange_composition (alloc_range 2 10) (alloc_range 1 5)
    (alloc_range 2 2) (by decide) (by decide)).1, ?_⟩
  exact (C7_subrange_composition (alloc_range 2 10) (alloc_range 1 5)
    (alloc_range 2 2) (by decide) (by decide)).2.2 (alloc_range 0 4)
    (alloc_range 3 2) (by decide)

/-! ## Claim C9: uninit failure modes -/

/-- C9: when the underlying buffer allocation inside `uninit` fails, with
`panic_on_fail` set the operation aborts the process (no error value is ever
returned); otherwise it returns the recoverable `MemoryExhausted`
resource-exhaustion error — the failure is never silently ignored. -/
theorem C9_uninit_failure_modes (size align : Nat) :
    (Allocation.uninit size align true true :
        Option (Except InterpErr (Allocation AllocId Unit))) = none ∧
    (Allocation.uninit size align false true :
        Option (Except InterpErr (Allocation AllocId Unit))) =
      some (.error .MemoryExhausted) :=
  ⟨rfl, rfl⟩

/-! ## Claim C5: construction -/

/-- C5: `from_bytes(content, align, mutability)` yields an allocation whose
length equals `content`'s, with empty provenance, and `is_range_initialized`
succeeds on every (in-bounds) range; a successful
`uninit(size, align, fail_fast)` yields an allocation of that size with
empty provenance, mutable, and `is_range_initialized` fails on every
non-empty range. -/
theorem C5_construction (content : List Nat) (align : Nat) (mutability : Mutability)
    (size align2 : Nat) (pf : Bool) (A : Allocation AllocId Unit)
    (hA : Allocation.uninit size align2 pf false = some (.ok A)) :
    (Allocation.from_bytes content align mutability :
        Allocation AllocId Unit).bytes.length = content.length ∧
    (Allocation.from_bytes content align mutability :
        Allocation AllocId Unit).provenance.ptrs = [] ∧
    (∀ r : AllocRange, r.endOf ≤ content.length →
      (Allocation.from_bytes content align mutability :
          Allocation AllocId Unit).init_mask.is_range_initialized r = .ok ()) ∧
    A.bytes.length = size ∧ A.provenance.ptrs = [] ∧
    A.mutability = Mutability.Mut ∧
    (∀ r : AllocRange, 0 < r.size →
      ∃ u, A.init_mask.is_range_initialized r = .error u) := by
  have hAeq : A = ⟨List.replicate size 0, ProvenanceMap.new, InitMask.new size false,
      align2, Mutability.Mut, ()⟩ := by
    unfold Allocation.uninit at hA
    simp only [if_neg Bool.false_ne_true] at hA
    cases hA
    rfl
  subst hAeq
  refine ⟨by simp [Allocation.from_bytes], rfl, ?_, by simp, rfl, rfl, ?_⟩
  · intro r hr
    rw [is_range_initialized_ok_iff]
    intro i hi1 hi2
    show (InitMask.new content.length true).get i = true
    have he : r.endOf = r.start + r.size := rfl
    rw [InitMask.get_new]
    rw [if_pos (by omega)]
  · intro r hr
    have hget : (InitMask.new size false).get r.start = false := by
      rw [InitMask.get_new]
      by_cases h : r.start < size
      · rw [if_pos h]
      · rw [if_neg h]
    obtain ⟨j, hj⟩ := findBit_isSome_of (InitMask.new size false) r.start
      (r.start + r.size) false r.start (Nat.le_refl _) (by omega) hget
    refine ⟨⟨j, ((InitMask.new size false).findBit j (r.start + r.size) true).getD
      (r.start + r.size) - j⟩, ?_⟩
    unfold InitMask.is_range_initialized
    rw [hj]

/-- Witness for C5 at concrete inputs. -/
theorem C5_construction_witness :
    (Allocation.from_bytes [1, 2] 1 Mutability.Mut :
        Allocation AllocId Unit).init_mask.is_range_initialized (alloc_range 0 2) =
      .ok () ∧
    (∃ u, (InitMask.new 3 false).is_range_initialized (alloc_range 0 3) = .error u) := by
  have h := C5_construction [1, 2] 1 Mutability.Mut 3 1 false
    ⟨List.replicate 3 0, ProvenanceMap.new, InitMask.new 3 false, 1, Mutability.Mut, ()⟩
    rfl
  exact ⟨h.2.2.1 (alloc_range 0 2) (by decide), h.2.2.2.2.2.2 (alloc_range 0 3) (by decide)⟩

/-! ## Claim C8: equality and hashing -/

/-- C8: two allocations with identical bytes, provenance entries,
initialization state, alignment, and mutability compare equal and produce
equal hashes, for every buffer length (in particular both below and above
the partial-hashing cutoff `MAX_HASHED_BUFFER_LEN = 128`): the
partial-hashing shortcut never makes two content-equal allocations hash
differently. -/
theorem C8_eq_and_hash (a b : Allocation AllocId Unit)
    (hbytes : a.bytes = b.bytes) (hprov : a.provenance = b.provenance)
    (hinit : a.init_mask = b.init_mask) (halign : a.align = b.align)
    (hmut : a.mutability = b.mutability) :
    a = b ∧ a.hashAlloc = b.hashAlloc := by
  obtain ⟨ab, ap, ai, aa, am, ae⟩ := a
  obtain ⟨bb, bp, bi, ba, bm, be⟩ := b
  cases ae
  cases be
  dsimp only at hbytes hprov hinit halign hmut
  subst hbytes
  subst hprov
  subst hinit
  subst halign
  subst hmut
  exact ⟨rfl, rfl⟩

/-- Witness for C8 at a buffer above the 128-byte cutoff and one below. -/
theorem C8_eq_and_hash_witness :
    ((Allocation.from_bytes (List.replicate 130 7) 1 Mutability.Not :
        Allocation AllocId Unit) =
      Allocation.from_bytes (List.replicate 130 7) 1 Mutability.Not ∧
     (Allocation.from_bytes (List.replicate 130 7) 1 Mutability.Not :
        Allocation AllocId Unit).hashAlloc =
      (Allocation.from_bytes (List.replicate 130 7) 1 Mutability.Not :
        Allocation AllocId Unit).hashAlloc) ∧
    ((Allocation.from_bytes [3, 4] 1 Mutability.Not : Allocation AllocId Unit) =
      Allocation.from_bytes [3, 4] 1 Mutability.Not ∧
     (Allocation.from_bytes [3, 4] 1 Mutability.Not :
        Allocation AllocId Unit).hashAlloc =
      (Allocation.from_bytes [3, 4] 1 Mutability.Not :
        Allocation AllocId Unit).hashAlloc) :=
  ⟨C8_eq_and_hash _ _ rfl rfl rfl rfl rfl, C8_eq_and_hash _ _ rfl rfl rfl rfl rfl⟩

/-! ## Claim C10: failing writes are not atomic -/

/-- C10: `get_bytes_mut`, `get_bytes_mut_ptr`, `write_scalar` and
`write_uninit` update the initialization mask for all of `R` before
attempting the provenance clear; when the clear fails (e.g.
`PartialPointerOverwrite` because `R`'s boundary bisects a recorded
pointer), the operation returns the error with the mask already mutated for
`R`: the failing write is not atomic, and whenever some byte of `R` was not
already in the target state the observable allocation differs from its
pre-call state. -/
theorem C10_failing_write_not_atomic (a : Allocation AllocId Unit)
    (cx : DataLayout) (r : AllocRange) (err : AllocError) (data : Nat)
    (hmut : a.mutability = Mutability.Mut) (hsz : r.size ≠ 0)
    (hclear : a.provenance.clear allocIdKind r cx = .error err) :
    a.get_bytes_mut allocIdKind cx r =
      some ({ a with init_mask := a.init_mask.set_range r true }, .error err) ∧
    a.get_bytes_mut_ptr allocIdKind cx r =
      some ({ a with init_mask := a.init_mask.set_range r true }, .error err) ∧
    a.write_scalar allocIdKind cx r (.int data r.size) =
      some ({ a with init_mask := a.init_mask.set_range r true }, .error err) ∧
    a.write_uninit allocIdKind cx r =
      some ({ a with init_mask := a.init_mask.set_range r false }, .error err) ∧
    (∀ i, r.start ≤ i → i < r.endOf → i < a.init_mask.bits.length →
      a.init_mask.get i = false →
      ({ a with init_mask := a.init_mask.set_range r true } :
          Allocation AllocId Unit) ≠ a) ∧
    (∀ i, r.start ≤ i → i < r.endOf → i < a.init_mask.bits.length →
      a.init_mask.get i = true →
      ({ a with init_mask := a.init_mask.set_range r false } :
          Allocation AllocId Unit) ≠ a) := by
  refine ⟨get_bytes_mut_of_clear_error a allocIdKind cx r err hmut hsz hclear,
    get_bytes_mut_ptr_of_clear_error a allocIdKind cx r err hmut hsz hclear,
    write_scalar_int_of_clear_error a allocIdKind cx r err data hmut hsz hclear,
    write_uninit_of_clear_error a allocIdKind cx r err hmut hsz hclear, ?_, ?_⟩
  · intro i h1 h2 h3 h4 heq
    have hm : (a.init_mask.set_range r true).get i = a.init_mask.get i :=
      congrArg (fun al => (Allocation.init_mask al).get i) heq
    rw [InitMask.get_set_range, if_pos ⟨h1, h2, h3⟩, h4] at hm
    cases hm
  · intro i h1 h2 h3 h4 heq
    have hm : (a.init_mask.set_range r false).get i = a.init_mask.get i :=
      congrArg (fun al => (Allocation.init_mask al).get i) heq
    rw [InitMask.get_set_range, if_pos ⟨h1, h2, h3⟩, h4] at hm
    cases hm

/-- Witness for C10: a pointer recorded at offset 0 (pointer size 2),
overwritten through range `[1, 3)`: the write fails with
`PartialPointerOverwrite 0` but byte 3 of the mask was already flipped. -/
theorem C10_failing_write_not_atomic_witness :
    (⟨[7, 8, 9, 9], ⟨[(0, ⟨5⟩)]⟩, ⟨[true, true, false, false]⟩, 1,
        Mutability.Mut, ()⟩ : Allocation AllocId Unit).write_uninit allocIdKind
      ⟨2, Endian.little⟩ (alloc_range 1 2) =
      some (⟨[7, 8, 9, 9], ⟨[(0, ⟨5⟩)]⟩, ⟨[true, false, false, false]⟩, 1,
        Mutability.Mut, ()⟩, .error (.PartialPointerOverwrite 0)) ∧
    (⟨[7, 8, 9, 9], ⟨[(0, ⟨5⟩)]⟩, ⟨[true, true, false, false]⟩, 1,
        Mutability.Mut, ()⟩ : Allocation AllocId Unit).get_bytes_mut allocIdKind
      ⟨2, Endian.little⟩ (alloc_range 1 2) =
      some (⟨[7, 8, 9, 9], ⟨[(0, ⟨5⟩)]⟩, ⟨[true, true, true, false]⟩, 1,
        Mutability.Mut, ()⟩, .error (.PartialPointerOverwrite 0)) := by
  have h := C10_failing_write_not_atomic
    (⟨[7, 8, 9, 9], ⟨[(0, ⟨5⟩)]⟩, ⟨[true, true, false, false]⟩, 1,
      Mutability.Mut, ()⟩ : Allocation AllocId Unit)
    ⟨2, Endian.little⟩ (alloc_range 1 2) (.PartialPointerOverwrite 0) 0
    rfl (by decide) (by decide)
  refine ⟨?_, ?_⟩
  · rw [h.2.2.2.1]
    decide
  · rw [h.1]
    decide

/-! ## Claim C2: the provenance/initialization invariant -/

/-- C2's counterexample: the claim as stated is false.  A mutable
allocation holding a recorded pointer at offset 0 (pointer size 2) with all
bytes initialized satisfies the invariant; `write_uninit` over `[1, 3)` is a
listed non-dangerous public operation, and it returns
`PartialPointerOverwrite` after having already cleared the initialization of
bytes 1 and 2 — leaving the provenance entry at 0 covering a byte that is no
longer initialized, so the invariant is broken at an observable point. -/
theorem C2_counterexample :
    provInitInv 2 (⟨[7, 8, 9, 9], ⟨[(0, ⟨5⟩)]⟩, ⟨[true, true, true, true]⟩, 1,
      Mutability.Mut, ()⟩ : Allocation AllocId Unit) ∧
    (⟨[7, 8, 9, 9], ⟨[(0, ⟨5⟩)]⟩, ⟨[true, true, true, true]⟩, 1,
        Mutability.Mut, ()⟩ : Allocation AllocId Unit).write_uninit allocIdKind
      ⟨2, Endian.little⟩ (alloc_range 1 2) =
      some (⟨[7, 8, 9, 9], ⟨[(0, ⟨5⟩)]⟩, ⟨[true, false, false, true]⟩, 1,
        Mutability.Mut, ()⟩, .error (.PartialPointerOverwrite 0)) ∧
    ¬ provInitInv 2 (⟨[7, 8, 9, 9], ⟨[(0, ⟨5⟩)]⟩, ⟨[true, false, false, true]⟩, 1,
      Mutability.Mut, ()⟩ : Allocation AllocId Unit) := by
  refine ⟨by decide, by decide, by decide⟩

/-- C2 (amended): every listed non-dangerous operation that RETURNS SUCCESS
preserves the invariant that every byte covered by a provenance entry is
marked initialized (writing a pointer marks its bytes initialized, reads do
not mutate at all); a `write_uninit` (or other write) that FAILS with a
partial-pointer-overwrite error is excluded — it can leave a provenance
entry covering bytes it already marked uninitialized, as the counterexample
shows. -/
theorem C2_prov_init_invariant (Prov Extra : Type) (pk : ProvKind Prov)
    (cx : DataLayout) :
    (∀ (content : List Nat) (align : Nat) (mu : Mutability),
      provInitInv cx.pointer_size
        (Allocation.from_bytes content align mu : Allocation Prov Unit)) ∧
    (∀ (size align2 : Nat) (pf : Bool) (A : Allocation Prov Unit),
      Allocation.uninit size align2 pf false = some (.ok A) →
      provInitInv cx.pointer_size A) ∧
    (∀ (a a1 : Allocation Prov Extra) (r : AllocRange) (bs : List Nat),
      provInitInv cx.pointer_size a →
      a.get_bytes_mut pk cx r = some (a1, .ok bs) →
      provInitInv cx.pointer_size a1) ∧
    (∀ (a a1 : Allocation Prov Extra) (r : AllocRange) (val : Scalar Prov),
      a.init_mask.bits.length = a.bytes.length →
      provInitInv cx.pointer_size a →
      a.write_scalar pk cx r val = some (a1, .ok ()) →
      provInitInv cx.pointer_size a1) ∧
    (∀ (a a1 : Allocation Prov Extra) (r : AllocRange),
      provInitInv cx.pointer_size a →
      a.write_uninit pk cx r = some (a1, .ok ()) →
      provInitInv cx.pointer_size a1) ∧
    (∀ (Err : Type) (a : Allocation AllocId Unit) (ex : Extra)
      (f : AllocId × Nat → Except Err (Prov × Nat)) (b : Allocation Prov Extra),
      provInitInv cx.pointer_size a →
      a.adjust_from_tcx cx ex f = some (.ok b) →
      provInitInv cx.pointer_size b) := by
  have hset_true : ∀ (m : InitMask) (r : AllocRange) (x : Nat),
      m.get x = true → (m.set_range r true).get x = true := by
    intro m r x hx
    rw [InitMask.get_set_range]
    by_cases hc : r.start ≤ x ∧ x < r.endOf ∧ x < m.bits.length
    · rw [if_pos hc]
    · rw [if_neg hc]; exact hx
  refine ⟨?_, ?_, ?_, ?_, ?_, ?_⟩
  · intro content align mu e he
    exact absurd he (List.not_mem_nil e)
  · intro size align2 pf A hA
    have hAeq : A = ⟨List.replicate size 0, ProvenanceMap.new,
        InitMask.new size false, align2, Mutability.Mut, ()⟩ := by
      unfold Allocation.uninit at hA
      simp only [if_neg Bool.false_ne_true] at hA
      cases hA
      rfl
    subst hAeq
    intro e he
    exact absurd he (List.not_mem_nil e)
  · intro a a1 r bs hinv h
    obtain ⟨_, _, _, _, _, _, hsh⟩ := get_bytes_mut_ok_shape a a1 pk cx r bs h
    rcases hsh with ⟨_, haeq⟩ | ⟨_, _, hmask, hprov⟩
    · rw [haeq]; exact hinv
    · intro e he i hi
      rw [hprov] at he
      have hmem := (List.mem_filter.mp he).1
      rw [hmask]
      exact hset_true _ _ _ (hinv e hmem i hi)
  · intro a a1 r val hlen hinv h
    cases val with
    | int data s =>
        obtain ⟨_, _, _, _, ha1⟩ := write_scalar_int_ok_shape a a1 pk cx r data s h
        subst ha1
        intro e he i hi
        have hmem := (List.mem_filter.mp he).1
        exact hset_true _ _ _ (hinv e hmem i hi)
    | ptr p off s =>
        obtain ⟨_, _, hp, _, hb, ha1⟩ := write_scalar_ptr_ok_shape a a1 pk cx r p off s h
        subst ha1
        intro e he i hi
        rcases mem_insertSorted _ _ _ _ he with he2 | he2
        · subst he2
          rw [InitMask.get_set_range]
          rw [if_pos ?_]
          have he2 : r.endOf = r.start + r.size := rfl
          exact ⟨by omega, by omega, by omega⟩
        · have hmem := (List.mem_filter.mp he2).1
          exact hset_true _ _ _ (hinv e hmem i hi)
  · intro a a1 r hinv h
    obtain ⟨_, _, _, _, hsh⟩ := write_uninit_ok_shape a a1 pk cx r h
    rcases hsh with ⟨_, haeq⟩ | ⟨_, _, hmask, hprov⟩
    · rw [haeq]; exact hinv
    · intro e he i hi
      rw [hprov] at he
      obtain ⟨hmem, hov⟩ := List.mem_filter.mp he
      rw [Bool.not_eq_true'] at hov
      rw [overlapsRange_false_iff] at hov
      rw [hmask, InitMask.get_set_range]
      have he2 : r.endOf = r.start + r.size := rfl
      rw [if_neg (by omega)]
      exact hinv e hmem i hi
  · intro Err a ex f b hinv h
    obtain ⟨hmask, _, _, hmap⟩ := adjust_from_tcx_ok_shape a cx ex f b h
    intro e he i hi
    have hfst : e.1 ∈ b.provenance.ptrs.map Prod.fst := List.mem_map_of_mem _ he
    rw [hmap] at hfst
    obtain ⟨e0, he0, hfeq⟩ := List.mem_map.mp hfst
    rw [hmask, ← hfeq]
    exact hinv e0 he0 i hi

/-- Witness for the amended C2: a successful `get_bytes_mut` over a range
disjoint from the recorded pointer keeps the invariant. -/
theorem C2_prov_init_invariant_witness :
    provInitInv 2 (⟨[7, 8, 9, 9], ⟨[(0, ⟨5⟩)]⟩, ⟨[true, true, true, false]⟩, 1,
      Mutability.Mut, ()⟩ : Allocation AllocId Unit) ∧
    provInitInv 2 (⟨[7, 8, 9, 9], ⟨[(0, ⟨5⟩)]⟩, ⟨[true, true, true, true]⟩, 1,
      Mutability.Mut, ()⟩ : Allocation AllocId Unit) := by
  constructor
  · decide
  · refine (C2_prov_init_invariant AllocId Unit allocIdKind
      ⟨2, Endian.little⟩).2.2.1
      (⟨[7, 8, 9, 9], ⟨[(0, ⟨5⟩)]⟩, ⟨[true, true, true, false]⟩, 1,
        Mutability.Mut, ()⟩ : Allocation AllocId Unit)
      (⟨[7, 8, 9, 9], ⟨[(0, ⟨5⟩)]⟩, ⟨[true, true, true, true]⟩, 1,
        Mutability.Mut, ()⟩ : Allocation AllocId Unit)
      (alloc_range 2 2) [9, 9] (by decide) (by decide)

/-! ## Claim C3: error discipline of byte-level reads -/

/-- C3: `get_bytes_strip_provenance` fails with `InvalidUninitBytes` iff some
byte of the range is uninitialized — this check runs before any provenance
check (no provenance hypothesis appears) — and the error carries the
requested range together with the first offending uninitialized sub-range;
when the range is fully initialized and the provenance kind does not treat
offsets as addresses (`AllocId`), it fails with `ReadPointerAsBytes` iff a
provenance entry overlaps the range, and otherwise returns the raw bytes.
`read_scalar`'s uninitialized check behaves likewise (its error carries no
detail, `InvalidUninitBytes None`). -/
theorem C3_byte_read_error_discipline (a : Allocation AllocId Unit)
    (cx : DataLayout) (r : AllocRange) :
    ((∃ i, r.start ≤ i ∧ i < r.endOf ∧ a.init_mask.get i = false) →
      ∃ u, a.get_bytes_strip_provenance allocIdKind cx r =
          some (.error (.InvalidUninitBytes (some ⟨r, u⟩))) ∧
        r.start ≤ u.start ∧ u.endOf ≤ r.endOf ∧ 0 < u.size ∧
        (∀ i, r.start ≤ i → i < u.start → a.init_mask.get i = true) ∧
        (∀ i, u.start ≤ i → i < u.endOf → a.init_mask.get i = false) ∧
        (u.endOf = r.endOf ∨ a.init_mask.get u.endOf = true)) ∧
    ((∀ i, r.start ≤ i → i < r.endOf → a.init_mask.get i = true) →
      r.endOf ≤ a.bytes.length →
      ((∃ e ∈ a.provenance.ptrs, overlapsRange cx.pointer_size e.1 r = true) →
        a.get_bytes_strip_provenance allocIdKind cx r =
          some (.error .ReadPointerAsBytes)) ∧
      ((∀ e ∈ a.provenance.ptrs, overlapsRange cx.pointer_size e.1 r = false) →
        a.get_bytes_strip_provenance allocIdKind cx r =
          some (.ok (sliceBytes a.bytes r.start r.size)))) ∧
    ((∃ i, r.start ≤ i ∧ i < r.endOf ∧ a.init_mask.get i = false) →
      ∀ rp, a.read_scalar allocIdKind cx r rp =
        some (.error (.InvalidUninitBytes none))) ∧
    ((∀ i, r.start ≤ i → i < r.endOf → a.init_mask.get i = true) →
      ∀ rp info, a.read_scalar allocIdKind cx r rp ≠
        some (.error (.InvalidUninitBytes info))) := by
  refine ⟨?_, ?_, ?_, ?_⟩
  · intro hex
    cases hinit : a.init_mask.is_range_initialized r with
    | ok u =>
        obtain ⟨i, h1, h2, h3⟩ := hex
        cases u
        rw [is_range_initialized_ok_iff] at hinit
        rw [hinit i h1 h2] at h3
        cases h3
    | error u =>
        obtain ⟨hu1, hu2, hu3, _, hu5, hu6, hu7⟩ :=
          is_range_initialized_error a.init_mask r u hinit
        refine ⟨u, ?_, hu1, hu2, hu3, hu5, hu6, hu7⟩
        unfold Allocation.get_bytes_strip_provenance
        rw [hinit]
  · intro hall hb
    have hinit : a.init_mask.is_range_initialized r = .ok () :=
      (is_range_initialized_ok_iff a.init_mask r).mpr hall
    constructor
    · intro ⟨e, he, hov⟩
      have hre : a.provenance.range_empty r cx = false := by
        cases hq : a.provenance.range_empty r cx
        · rfl
        · rw [range_empty_iff] at hq
          rw [hq e he] at hov
          cases hov
      unfold Allocation.get_bytes_strip_provenance
      rw [hinit]
      dsimp only
      rw [hre]
      rfl
    · intro hnov
      have hre : a.provenance.range_empty r cx = true :=
        (range_empty_iff a.provenance r cx).mpr hnov
      unfold Allocation.get_bytes_strip_provenance
      rw [hinit]
      dsimp only
      rw [hre]
      show (a.get_bytes_unchecked r).map Except.ok = _
      unfold Allocation.get_bytes_unchecked
      rw [if_pos hb]
      rfl
  · intro hex rp
    have hnotok : (a.init_mask.is_range_initialized r).isOk = false := by
      cases hq : (a.init_mask.is_range_initialized r).isOk
      · rfl
      · rw [is_range_initialized_isOk_iff] at hq
        obtain ⟨i, h1, h2, h3⟩ := hex
        rw [hq i h1 h2] at h3
        cases h3
    unfold Allocation.read_scalar
    rw [hnotok]
    rfl
  · intro hall rp info
    have hok : (a.init_mask.is_range_initialized r).isOk = true :=
      (is_range_initialized_isOk_iff a.init_mask r).mpr hall
    unfold Allocation.read_scalar
    rw [hok]
    rw [if_neg (fun hq => Bool.noConfusion hq)]
    cases hgb : a.get_bytes_unchecked r with
    | none => intro hq; cases hq
    | some bytes =>
        dsimp only
        cases rp with
        | false =>
            rw [if_neg (fun hq => Bool.noConfusion hq)]
            dsimp only [allocIdKind]
            rw [if_neg (fun hq => Bool.noConfusion hq)]
            cases hre : a.provenance.range_empty r cx
            · rw [if_neg (fun hq => Bool.noConfusion hq)]
              intro hq
              cases Option.some.inj hq
            · rw [if_pos rfl]
              intro hq
              cases Option.some.inj hq
        | true =>
            rw [if_pos rfl]
            by_cases hp : r.size = cx.pointer_size
            · rw [if_pos hp]
              cases hgp : a.provenance.get_ptr r.start with
              | some prov =>
                  dsimp only
                  intro hq
                  cases Option.some.inj hq
              | none =>
                  dsimp only [allocIdKind]
                  rw [if_neg (fun hq => Bool.noConfusion hq)]
                  cases hre : a.provenance.range_empty r cx
                  · rw [if_neg (fun hq => Bool.noConfusion hq)]
                    intro hq
                    cases Option.some.inj hq
                  · rw [if_pos rfl]
                    intro hq
                    cases Option.some.inj hq
            · rw [if_neg hp]
              intro hq
              cases hq

/-- Witness for C3 at concrete allocations. -/
theorem C3_byte_read_error_discipline_witness :
    (∃ u, (⟨[7, 8], ⟨[]⟩, ⟨[true, false]⟩, 1, Mutability.Mut, ()⟩ :
        Allocation AllocId Unit).get_bytes_strip_provenance allocIdKind
        ⟨2, Endian.little⟩ (alloc_range 0 2) =
      some (.error (.InvalidUninitBytes (some ⟨alloc_range 0 2, u⟩)))) ∧
    (⟨[7, 8], ⟨[(0, ⟨5⟩)]⟩, ⟨[true, true]⟩, 1, Mutability.Mut, ()⟩ :
        Allocation AllocId Unit).get_bytes_strip_provenance allocIdKind
        ⟨2, Endian.little⟩ (alloc_range 0 2) =
      some (.error .ReadPointerAsBytes) ∧
    (⟨[7, 8], ⟨[]⟩, ⟨[true, true]⟩, 1, Mutability.Mut, ()⟩ :
        Allocation AllocId Unit).get_bytes_strip_provenance allocIdKind
        ⟨2, Endian.little⟩ (alloc_range 0 2) = some (.ok [7, 8]) := by
  refine ⟨?_, ?_, ?_⟩
  · obtain ⟨u, hu, _⟩ := (C3_byte_read_error_discipline
      (⟨[7, 8], ⟨[]⟩, ⟨[true, false]⟩, 1, Mutability.Mut, ()⟩ :
        Allocation AllocId Unit) ⟨2, Endian.little⟩ (alloc_range 0 2)).1
      ⟨1, by decide, by decide, by decide⟩
    exact ⟨u, hu⟩
  · exact ((C3_byte_read_error_discipline
      (⟨[7, 8], ⟨[(0, ⟨5⟩)]⟩, ⟨[true, true]⟩, 1, Mutability.Mut, ()⟩ :
        Allocation AllocId Unit) ⟨2, Endian.little⟩ (alloc_range 0 2)).2.1
      (by decide) (by decide)).1 ⟨(0, ⟨5⟩), by decide, by decide⟩
  · exact ((C3_byte_read_error_discipline
      (⟨[7, 8], ⟨[]⟩, ⟨[true, true]⟩, 1, Mutability.Mut, ()⟩ :
        Allocation AllocId Unit) ⟨2, Endian.little⟩ (alloc_range 0 2)).2.1
      (by decide) (by decide)).2 (by decide)

/-! ## Claim C1: write/read round-trip -/

/-- C1: on a mutable allocation, for every in-bounds pointer-width range `R`
and every (well-formed) scalar `V`, a successful `write_scalar(R, V)`
followed immediately (no intervening write) by
`read_scalar(R, want_provenance := true)` returns exactly `V`.
`R` must be pointer-width for the read's own contract (`read_scalar` with
provenance asserts it), and the write's success already enforces that `V`'s
size matches `R` and that the allocation is mutable and `R` in bounds. -/
theorem C1_write_read_roundtrip (a a1 : Allocation AllocId Unit)
    (cx : DataLayout) (r : AllocRange) (val : Scalar AllocId)
    (hlen : a.init_mask.bits.length = a.bytes.length)
    (hp : r.size = cx.pointer_size)
    (hfits : val.fits)
    (hw : a.write_scalar allocIdKind cx r val = some (a1, .ok ())) :
    a1.read_scalar allocIdKind cx r true = some (.ok val) := by
  have hend : r.endOf = r.start + r.size := rfl
  cases val with
  | int data s =>
      obtain ⟨hs, hsz, hmut, hb, ha1⟩ :=
        write_scalar_int_ok_shape a a1 allocIdKind cx r data s hw
      subst ha1
      have henc : (write_target_uint cx.endian r.size data).length = r.size :=
        write_target_uint_length cx.endian r.size data
      have hinit : ((a.init_mask.set_range r true).is_range_initialized r) = .ok () := by
        rw [is_range_initialized_ok_iff]
        intro i h1 h2
        rw [InitMask.get_set_range]
        rw [if_pos ⟨h1, h2, by rw [hlen]; omega⟩]
      have hslice : sliceBytes
          (writeBytes a.bytes r.start (write_target_uint cx.endian r.size data))
          r.start r.size = write_target_uint cx.endian r.size data := by
        have hq := sliceBytes_writeBytes_self a.bytes
          (write_target_uint cx.endian r.size data) r.start (by rw [henc]; omega)
        rw [henc] at hq
        exact hq
      have hgb : (writeBytes a.bytes r.start
          (write_target_uint cx.endian r.size data)).length = a.bytes.length :=
        writeBytes_length a.bytes _ r.start (by rw [henc]; omega)
      have hdec : read_target_uint cx.endian (write_target_uint cx.endian r.size data)
          = data := by
        rw [read_write_target_uint]
        unfold Scalar.fits at hfits
        rw [hs] at hfits
        exact Nat.mod_eq_of_lt hfits
      have hgp : (⟨a.provenance.ptrs.filter
          fun e2 => !(overlapsRange cx.pointer_size e2.1 r)⟩ :
            ProvenanceMap AllocId).get_ptr r.start = none := by
        rw [get_ptr_eq_none_iff]
        intro e he heq
        obtain ⟨_, hov⟩ := List.mem_filter.mp he
        rw [Bool.not_eq_true'] at hov
        rw [overlapsRange_false_iff] at hov
        omega
      have hre : (⟨a.provenance.ptrs.filter
          fun e2 => !(overlapsRange cx.pointer_size e2.1 r)⟩ :
            ProvenanceMap AllocId).range_empty r cx = true := by
        rw [range_empty_iff]
        intro e he
        obtain ⟨_, hov⟩ := List.mem_filter.mp he
        rw [Bool.not_eq_true'] at hov
        exact hov
      unfold Allocation.read_scalar
      dsimp only
      rw [hinit]
      rw [if_neg (fun hq => Bool.noConfusion hq)]
      rw [show Allocation.get_bytes_unchecked _ r =
          some (write_target_uint cx.endian r.size data) from by
        unfold Allocation.get_bytes_unchecked
        dsimp only
        rw [if_pos (by rw [hgb]; exact hb)]
        exact congrArg some hslice]
      dsimp only
      rw [if_pos rfl, if_pos hp]
      rw [hgp]
      dsimp only [allocIdKind]
      rw [if_neg (fun hq => Bool.noConfusion hq)]
      rw [hre]
      rw [if_pos rfl, hdec, hs]
  | ptr p off s =>
      obtain ⟨hs, hsz, hp2, hmut, hb, ha1⟩ :=
        write_scalar_ptr_ok_shape a a1 allocIdKind cx r p off s hw
      subst ha1
      have henc : (write_target_uint cx.endian r.size off).length = r.size :=
        write_target_uint_length cx.endian r.size off
      have hinit : ((a.init_mask.set_range r true).is_range_initialized r) = .ok () := by
        rw [is_range_initialized_ok_iff]
        intro i h1 h2
        rw [InitMask.get_set_range]
        rw [if_pos ⟨h1, h2, by rw [hlen]; omega⟩]
      have hslice : sliceBytes
          (writeBytes a.bytes r.start (write_target_uint cx.endian r.size off))
          r.start r.size = write_target_uint cx.endian r.size off := by
        have hq := sliceBytes_writeBytes_self a.bytes
          (write_target_uint cx.endian r.size off) r.start (by rw [henc]; omega)
        rw [henc] at hq
        exact hq
      have hgb : (writeBytes a.bytes r.start
          (write_target_uint cx.endian r.size off)).length = a.bytes.length :=
        writeBytes_length a.bytes _ r.start (by rw [henc]; omega)
      have hdec : read_target_uint cx.endian (write_target_uint cx.endian r.size off)
          = off := by
        rw [read_write_target_uint]
        unfold Scalar.fits at hfits
        rw [hs] at hfits
        exact Nat.mod_eq_of_lt hfits
      have hgp : (⟨insertSorted (a.provenance.ptrs.filter
          fun e2 => !(overlapsRange cx.pointer_size e2.1 r)) r.start p⟩ :
            ProvenanceMap AllocId).get_ptr r.start = some p := by
        unfold ProvenanceMap.get_ptr
        rw [find?_insertSorted]
        rfl
      unfold Allocation.read_scalar
      dsimp only
      rw [hinit]
      rw [if_neg (fun hq => Bool.noConfusion hq)]
      rw [show Allocation.get_bytes_unchecked _ r =
          some (write_target_uint cx.endian r.size off) from by
        unfold Allocation.get_bytes_unchecked
        dsimp only
        rw [if_pos (by rw [hgb]; exact hb)]
        exact congrArg some hslice]
      dsimp only
      rw [if_pos rfl, if_pos hp]
      rw [hgp]
      dsimp only
      rw [hdec, hs, hp2]

/-- Witness for C1: write a pointer scalar and an integer scalar at
concrete inputs and read each back. -/
theorem C1_write_read_roundtrip_witness :
    (⟨[1, 0, 0], ⟨[(0, ⟨5⟩)]⟩, ⟨[true, true, false]⟩, 1, Mutability.Mut, ()⟩ :
        Allocation AllocId Unit).read_scalar allocIdKind ⟨2, Endian.little⟩
      (alloc_range 0 2) true = some (.ok (.ptr ⟨5⟩ 1 2)) ∧
    (⟨[44, 1, 0], ⟨[]⟩, ⟨[true, true, false]⟩, 1, Mutability.Mut, ()⟩ :
        Allocation AllocId Unit).read_scalar allocIdKind ⟨2, Endian.little⟩
      (alloc_range 0 2) true = some (.ok (.int 300 2)) := by
  constructor
  · exact C1_write_read_roundtrip
      (⟨[0, 0, 0], ⟨[]⟩, ⟨[false, false, false]⟩, 1, Mutability.Mut, ()⟩ :
        Allocation AllocId Unit)
      (⟨[1, 0, 0], ⟨[(0, ⟨5⟩)]⟩, ⟨[true, true, false]⟩, 1, Mutability.Mut, ()⟩ :
        Allocation AllocId Unit)
      ⟨2, Endian.little⟩ (alloc_range 0 2) (.ptr ⟨5⟩ 1 2)
      (by decide) (by decide) (by decide) (by decide)
  · exact C1_write_read_roundtrip
      (⟨[0, 0, 0], ⟨[]⟩, ⟨[false, false, false]⟩, 1, Mutability.Mut, ()⟩ :
        Allocation AllocId Unit)
      (⟨[44, 1, 0], ⟨[]⟩, ⟨[true, true, false]⟩, 1, Mutability.Mut, ()⟩ :
        Allocation AllocId Unit)
      ⟨2, Endian.little⟩ (alloc_range 0 2) (.int 300 2)
      (by decide) (by decide) (by decide) (by decide)

/-! ## Claim C4: partial overwrite destroys a pointer entry -/

/-- C4: on a provenance kind whose offsets are addresses (where the partial
clear is allowed to destroy rather than error), overwriting any strict
subset `R` of a recorded pointer's pointer-width region `[o, o+P)` — via
`get_bytes_mut`, `write_scalar` or `write_uninit` — removes that provenance
entry entirely (no truncated entry is introduced: the surviving entries are
a subset of the old ones); such writes do succeed on a mutable, in-bounds
allocation; and once the full region is subsequently overwritten with plain
data, it reads back as a plain integer with no error — in particular never
again as a pointer with the original identity. -/
theorem C4_partial_overwrite_destroys (a : Allocation MachProv Unit)
    (cx : DataLayout) (o : Nat) (pv : MachProv) (R : AllocRange)
    (hlen : a.init_mask.bits.length = a.bytes.length)
    (hmem : (o, pv) ∈ a.provenance.ptrs)
    (hin1 : o ≤ R.start) (hin2 : R.endOf ≤ o + cx.pointer_size)
    (hne : 0 < R.size) (hstrict : R.size < cx.pointer_size) :
    (∀ a1 bs, a.get_bytes_mut machKind cx R = some (a1, .ok bs) →
      (o, pv) ∉ a1.provenance.ptrs ∧
      ∀ e ∈ a1.provenance.ptrs, e ∈ a.provenance.ptrs) ∧
    (∀ a1 d s, a.write_scalar machKind cx R (.int d s) = some (a1, .ok ()) →
      (o, pv) ∉ a1.provenance.ptrs ∧
      ∀ e ∈ a1.provenance.ptrs, e ∈ a.provenance.ptrs) ∧
    (∀ a1, a.write_uninit machKind cx R = some (a1, .ok ()) →
      (o, pv) ∉ a1.provenance.ptrs ∧
      ∀ e ∈ a1.provenance.ptrs, e ∈ a.provenance.ptrs) ∧
    (a.mutability = Mutability.Mut → R.endOf ≤ a.bytes.length →
      a.get_bytes_mut machKind cx R =
        some ({ a with
          init_mask := a.init_mask.set_range R true,
          provenance := ⟨a.provenance.ptrs.filter
            fun e2 => !(overlapsRange cx.pointer_size e2.1 R)⟩ },
          .ok (sliceBytes a.bytes R.start R.size))) ∧
    (∀ a1 a2 w,
      a.write_uninit machKind cx R = some (a1, .ok ()) →
      w < 2 ^ (8 * cx.pointer_size) →
      a1.write_scalar machKind cx (alloc_range o cx.pointer_size)
        (.int w cx.pointer_size) = some (a2, .ok ()) →
      a2.read_scalar machKind cx (alloc_range o cx.pointer_size) true =
        some (.ok (.int w cx.pointer_size))) := by
  have hend : R.endOf = R.start + R.size := rfl
  have hov : overlapsRange cx.pointer_size o R = true := by
    rw [overlapsRange_true_iff]
    omega
  have hdestroy : ∀ (l : List (Nat × MachProv)),
      l = a.provenance.ptrs.filter
        (fun e2 => !(overlapsRange cx.pointer_size e2.1 R)) →
      (o, pv) ∉ l ∧ ∀ e ∈ l, e ∈ a.provenance.ptrs := by
    intro l hl
    subst hl
    constructor
    · intro hc
      obtain ⟨_, hq⟩ := List.mem_filter.mp hc
      rw [hov] at hq
      cases hq
    · intro e he
      exact (List.mem_filter.mp he).1
  refine ⟨?_, ?_, ?_, ?_, ?_⟩
  · intro a1 bs h
    obtain ⟨_, _, _, _, _, _, hsh⟩ := get_bytes_mut_ok_shape a a1 machKind cx R bs h
    rcases hsh with ⟨h0, _⟩ | ⟨_, _, _, hprov⟩
    · omega
    · have := hdestroy a1.provenance.ptrs (by rw [hprov])
      exact this
  · intro a1 d s h
    obtain ⟨_, _, _, _, ha1⟩ := write_scalar_int_ok_shape a a1 machKind cx R d s h
    subst ha1
    exact hdestroy _ rfl
  · intro a1 h
    obtain ⟨_, _, _, _, hsh⟩ := write_uninit_ok_shape a a1 machKind cx R h
    rcases hsh with ⟨h0, _⟩ | ⟨_, _, _, hprov⟩
    · omega
    · exact hdestroy a1.provenance.ptrs (by rw [hprov])
  · intro hmut hb
    unfold Allocation.get_bytes_mut
    rw [mark_init_of_pos a R true hmut (by omega)]
    dsimp only
    rw [clear_of_offset_is_addr a.provenance machKind R cx rfl (by omega)]
    dsimp only
    rw [if_pos hb]
  · intro a1 a2 w hw1 hwfits hw2
    obtain ⟨_, _, _, _, hsh⟩ := write_uninit_ok_shape a a1 machKind cx R hw1
    rcases hsh with ⟨h0, _⟩ | ⟨_, _, hmask1, hprov1⟩
    · omega
    dsimp only [alloc_range] at hw2 ⊢
    obtain ⟨_, hP, hmut2, hb2, ha2⟩ := write_scalar_int_ok_shape a1 a2 machKind cx
      (⟨o, cx.pointer_size⟩ : AllocRange) w cx.pointer_size hw2
    subst ha2
    have hPpos : 0 < cx.pointer_size := by omega
    have hrf : (⟨o, cx.pointer_size⟩ : AllocRange).endOf = o + cx.pointer_size := rfl
    rw [hrf] at hb2
    have hlen1 : a1.init_mask.bits.length = a1.bytes.length := by
      obtain ⟨hby, _, _, _, _⟩ := write_uninit_ok_shape a a1 machKind cx R hw1
      rw [hby, hmask1, InitMask.set_range_length]
      exact hlen
    have henc : (write_target_uint cx.endian cx.pointer_size w).length =
        cx.pointer_size := write_target_uint_length cx.endian cx.pointer_size w
    have hinit : ((a1.init_mask.set_range (⟨o, cx.pointer_size⟩ : AllocRange) true
        ).is_range_initialized (⟨o, cx.pointer_size⟩ : AllocRange)) = .ok () := by
      rw [is_range_initialized_ok_iff]
      intro i h1 h2
      have h2e : (⟨o, cx.pointer_size⟩ : AllocRange).endOf = o + cx.pointer_size := rfl
      rw [InitMask.get_set_range]
      rw [if_pos ⟨h1, h2, by rw [hlen1]; omega⟩]
    have hslice : sliceBytes
        (writeBytes a1.bytes o (write_target_uint cx.endian cx.pointer_size w))
        o cx.pointer_size = write_target_uint cx.endian cx.pointer_size w := by
      have hq := sliceBytes_writeBytes_self a1.bytes
        (write_target_uint cx.endian cx.pointer_size w) o (by rw [henc]; omega)
      rw [henc] at hq
      exact hq
    have hgbl : (writeBytes a1.bytes o
        (write_target_uint cx.endian cx.pointer_size w)).length =
        a1.bytes.length :=
      writeBytes_length a1.bytes _ o (by rw [henc]; omega)
    have hdec : read_target_uint cx.endian
        (write_target_uint cx.endian cx.pointer_size w) = w := by
      rw [read_write_target_uint]
      exact Nat.mod_eq_of_lt hwfits
    have hcover : ∀ e ∈ (a1.provenance.ptrs.filter fun e2 =>
        !(overlapsRange cx.pointer_size e2.1 (⟨o, cx.pointer_size⟩ : AllocRange))),
        ∀ x, e.1 ≤ x → x < e.1 + cx.pointer_size →
          ¬(o ≤ x ∧ x < o + cx.pointer_size) := by
      intro e he x hx1 hx2 hc
      obtain ⟨_, hq⟩ := List.mem_filter.mp he
      rw [Bool.not_eq_true'] at hq
      rw [overlapsRange_false_iff] at hq
      have hqe : (⟨o, cx.pointer_size⟩ : AllocRange).endOf = o + cx.pointer_size := rfl
      rw [hqe] at hq
      have hqs : (⟨o, cx.pointer_size⟩ : AllocRange).start = o := rfl
      rw [hqs] at hq
      omega
    have hgp : (⟨a1.provenance.ptrs.filter fun e2 =>
        !(overlapsRange cx.pointer_size e2.1 (⟨o, cx.pointer_size⟩ : AllocRange))⟩ :
          ProvenanceMap MachProv).get_ptr o = none := by
      rw [get_ptr_eq_none_iff]
      intro e he heq
      exact hcover e he o (by omega) (by omega) ⟨Nat.le_refl o, by omega⟩
    have hgnone : ∀ x, o ≤ x → x < o + cx.pointer_size →
        (⟨a1.provenance.ptrs.filter fun e2 =>
          !(overlapsRange cx.pointer_size e2.1 (⟨o, cx.pointer_size⟩ : AllocRange))⟩ :
            ProvenanceMap MachProv).get x cx = none := by
      intro x hx1 hx2
      rw [get_eq_none_iff]
      intro e he hc
      exact hcover e he x hc.1 hc.2 ⟨hx1, hx2⟩
    unfold Allocation.read_scalar
    dsimp only
    rw [hinit]
    rw [if_neg (fun hq => Bool.noConfusion hq)]
    rw [show Allocation.get_bytes_unchecked _ (⟨o, cx.pointer_size⟩ : AllocRange) =
        some (write_target_uint cx.endian cx.pointer_size w) from by
      unfold Allocation.get_bytes_unchecked
      dsimp only
      rw [if_pos (show (⟨o, cx.pointer_size⟩ : AllocRange).endOf ≤ _ from by
        rw [hrf.symm] at hb2
        rw [hgbl]
        exact hb2)]
      exact congrArg some hslice]
    dsimp only
    rw [if_pos rfl, if_pos rfl]
    rw [hgp]
    rw [if_pos (show machKind.OFFSET_IS_ADDR = true from rfl)]
    rw [hgnone o (Nat.le_refl o) (by omega)]
    rw [show (List.range' 1 (cx.pointer_size - 1)).foldl
        (fun acc i => machKind.join acc
          ((⟨a1.provenance.ptrs.filter fun e2 =>
            !(overlapsRange cx.pointer_size e2.1 (⟨o, cx.pointer_size⟩ : AllocRange))⟩ :
              ProvenanceMap MachProv).get (o + i) cx))
        none = none from by
      apply foldl_machJoin_none
      intro i hi
      rw [List.mem_range'] at hi
      obtain ⟨k, hk, rfl⟩ := hi
      exact hgnone _ (by omega) (by omega)]
    dsimp only
    rw [hdec]

/-- Witness for C4: pointer size 2, pointer at offset 0, one byte of it
overwritten, then the full region rewritten with plain data. -/
theorem C4_partial_overwrite_destroys_witness :
    ((0, (⟨5⟩ : MachProv)) ∉
      ({ ptrs := [] } : ProvenanceMap MachProv).ptrs) ∧
    (⟨[1, 0], ⟨[]⟩, ⟨[true, true]⟩, 1, Mutability.Mut, ()⟩ :
        Allocation MachProv Unit).read_scalar machKind ⟨2, Endian.little⟩
      (alloc_range 0 2) true = some (.ok (.int 1 2)) := by
  have h := C4_partial_overwrite_destroys
    (⟨[9, 9], ⟨[(0, ⟨5⟩)]⟩, ⟨[true, true]⟩, 1, Mutability.Mut, ()⟩ :
      Allocation MachProv Unit)
    ⟨2, Endian.little⟩ 0 ⟨5⟩ (alloc_range 1 1)
    (by decide) (by decide) (by decide) (by decide) (by decide) (by decide)
  constructor
  · exact (h.2.2.1
      (⟨[9, 9], ⟨[]⟩, ⟨[true, false]⟩, 1, Mutability.Mut, ()⟩ :
        Allocation MachProv Unit) (by decide)).1
  · exact h.2.2.2.2
      (⟨[9, 9], ⟨[]⟩, ⟨[true, false]⟩, 1, Mutability.Mut, ()⟩ :
        Allocation MachProv Unit)
      (⟨[1, 0], ⟨[]⟩, ⟨[true, true]⟩, 1, Mutability.Mut, ()⟩ :
        Allocation MachProv Unit)
      1 (by decide) (by decide) (by decide)

/-! ## Claim C6: adjust_from_tcx -/

/-- The `adjust_from_tcx` loop, success case: with pairwise-separated,
in-bounds entries whose remapping succeeds, the loop succeeds; bytes outside
every entry's pointer-sized window are untouched, offsets are preserved, and
each entry's window holds the re-encoded remapped offset while its new
provenance is recorded at the same offset. -/
theorem adjustLoop_ok_strong (cx : DataLayout)
    (f : AllocId × Nat → Except Err (Prov × Nat)) (hP : 0 < cx.pointer_size) :
    ∀ (l : List (Nat × AllocId)) (bytes : List Nat),
      List.Pairwise (fun e1 e2 => e1.1 + cx.pointer_size ≤ e2.1) l →
      (∀ e ∈ l, e.1 + cx.pointer_size ≤ bytes.length) →
      (∀ e ∈ l, ∃ q, f (e.2, read_target_uint cx.endian
        (sliceBytes bytes e.1 cx.pointer_size)) = .ok q) →
      ∃ bytes2 np, adjustLoop cx f l bytes = some (.ok (bytes2, np)) ∧
        bytes2.length = bytes.length ∧
        (∀ j, (∀ e ∈ l, j < e.1 ∨ e.1 + cx.pointer_size ≤ j) →
          byteAt bytes2 j = byteAt bytes j) ∧
        np.map Prod.fst = l.map Prod.fst ∧
        (∀ offset aid p2 off2, (offset, aid) ∈ l →
          f (aid, read_target_uint cx.endian
            (sliceBytes bytes offset cx.pointer_size)) = .ok (p2, off2) →
          (offset, p2) ∈ np ∧
          sliceBytes bytes2 offset cx.pointer_size =
            write_target_uint cx.endian cx.pointer_size off2) := by
  intro l
  induction l with
  | nil =>
      intro bytes _ _ _
      refine ⟨bytes, [], rfl, rfl, fun j _ => rfl, rfl, ?_⟩
      intro offset aid p2 off2 hmem
      cases hmem
  | cons e rest ih =>
      intro bytes hsep hbound hok
      obtain ⟨offset, aid⟩ := e
      have hb0 : offset + cx.pointer_size ≤ bytes.length :=
        hbound _ (List.mem_cons_self _ _)
      obtain ⟨⟨p2h, off2h⟩, hf⟩ := hok _ (List.mem_cons_self _ _)
      have henc : (write_target_uint cx.endian cx.pointer_size off2h).length =
          cx.pointer_size := write_target_uint_length cx.endian cx.pointer_size off2h
      have hwb : offset + (write_target_uint cx.endian cx.pointer_size off2h).length ≤
          bytes.length := by rw [henc]; exact hb0
      have hlen1 : (writeBytes bytes offset
          (write_target_uint cx.endian cx.pointer_size off2h)).length =
          bytes.length := writeBytes_length bytes _ offset hwb
      rw [List.pairwise_cons] at hsep
      obtain ⟨hsephead, hseprest⟩ := hsep
      have hslice_pres : ∀ e2 ∈ rest, sliceBytes (writeBytes bytes offset
          (write_target_uint cx.endian cx.pointer_size off2h))
            e2.1 cx.pointer_size = sliceBytes bytes e2.1 cx.pointer_size := by
        intro e2 he2
        apply sliceBytes_writeBytes_disjoint bytes _ offset e2.1 cx.pointer_size hwb
        right
        rw [henc]
        exact hsephead e2 he2
      obtain ⟨bytes2, np2, hloop2, hlen2, hframe2, hmap2, hentry2⟩ :=
        ih (writeBytes bytes offset (write_target_uint cx.endian cx.pointer_size off2h))
          hseprest
          (fun e2 he2 => by rw [hlen1]; exact hbound e2 (List.mem_cons_of_mem _ he2))
          (fun e2 he2 => by rw [hslice_pres e2 he2]
                            exact hok e2 (List.mem_cons_of_mem _ he2))
      have hslice2 : sliceBytes bytes2 offset cx.pointer_size =
          write_target_uint cx.endian cx.pointer_size off2h := by
        have hself : sliceBytes (writeBytes bytes offset
            (write_target_uint cx.endian cx.pointer_size off2h))
              offset cx.pointer_size =
            write_target_uint cx.endian cx.pointer_size off2h := by
          have hq := sliceBytes_writeBytes_self bytes
            (write_target_uint cx.endian cx.pointer_size off2h) offset hwb
          rw [henc] at hq
          exact hq
        rw [← hself]
        apply sliceBytes_ext
        · rw [hlen2, hlen1]; exact hb0
        · rw [hlen1]; exact hb0
        · intro i hi
          apply hframe2
          intro e2 he2
          left
          have := hsephead e2 he2
          omega
      refine ⟨bytes2, (offset, p2h) :: np2, ?_, ?_, ?_, ?_, ?_⟩
      · unfold adjustLoop
        rw [if_pos hb0, hf]
        dsimp only
        rw [hloop2]
      · rw [hlen2, hlen1]
      · intro j hj
        have hhead := hj _ (List.mem_cons_self _ _)
        rw [hframe2 j (fun e2 he2 => hj e2 (List.mem_cons_of_mem _ he2))]
        rw [byteAt_writeBytes bytes _ offset j hwb]
        rw [if_neg (by rw [henc]; dsimp only at hhead; omega)]
      · rw [List.map_cons, List.map_cons, hmap2]
      · intro offset2 aid2 p3 off3 hmem hf2
        rw [List.mem_cons] at hmem
        rcases hmem with hmem | hmem
        · obtain ⟨ho, ha⟩ : offset2 = offset ∧ aid2 = aid := by
            have h1 := congrArg Prod.fst hmem
            have h2 := congrArg Prod.snd hmem
            exact ⟨h1, h2⟩
          subst ho
          subst ha
          rw [hf] at hf2
          have hq := Except.ok.inj hf2
          have hqp : p2h = p3 := congrArg Prod.fst hq
          have hqo : off2h = off3 := congrArg Prod.snd hq
          subst hqp
          subst hqo
          exact ⟨List.mem_cons_self _ _, hslice2⟩
        · have hrw : sliceBytes (writeBytes bytes offset
              (write_target_uint cx.endian cx.pointer_size off2h))
                offset2 cx.pointer_size = sliceBytes bytes offset2 cx.pointer_size :=
            hslice_pres (offset2, aid2) hmem
          obtain ⟨hm, hs⟩ := hentry2 offset2 aid2 p3 off3 hmem (by rw [hrw]; exact hf2)
          exact ⟨List.mem_cons_of_mem _ hm, hs⟩

/-- The `adjust_from_tcx` loop, failure case: if the remap function fails on
any entry (with the integer decoded from that entry's original bytes), the
whole loop returns an error. -/
theorem adjustLoop_error_of_remap_error (cx : DataLayout)
    (f : AllocId × Nat → Except Err (Prov × Nat)) (hP : 0 < cx.pointer_size) :
    ∀ (l : List (Nat × AllocId)) (bytes : List Nat),
      List.Pairwise (fun e1 e2 => e1.1 + cx.pointer_size ≤ e2.1) l →
      (∀ e ∈ l, e.1 + cx.pointer_size ≤ bytes.length) →
      (∃ e ∈ l, ∃ err, f (e.2, read_target_uint cx.endian
        (sliceBytes bytes e.1 cx.pointer_size)) = .error err) →
      ∃ err, adjustLoop cx f l bytes = some (.error err) := by
  intro l
  induction l with
  | nil =>
      intro bytes _ _ hex
      obtain ⟨e, he, _⟩ := hex
      cases he
  | cons e rest ih =>
      intro bytes hsep hbound hex
      obtain ⟨offset, aid⟩ := e
      have hb0 : offset + cx.pointer_size ≤ bytes.length :=
        hbound _ (List.mem_cons_self _ _)
      rw [List.pairwise_cons] at hsep
      obtain ⟨hsephead, hseprest⟩ := hsep
      cases hf : f (aid, read_target_uint cx.endian
          (sliceBytes bytes offset cx.pointer_size)) with
      | error err =>
          refine ⟨err, ?_⟩
          unfold adjustLoop
          rw [if_pos hb0, hf]
      | ok q =>
          obtain ⟨p2h, off2h⟩ := q
          have henc : (write_target_uint cx.endian cx.pointer_size off2h).length =
              cx.pointer_size :=
            write_target_uint_length cx.endian cx.pointer_size off2h
          have hwb : offset +
              (write_target_uint cx.endian cx.pointer_size off2h).length ≤
              bytes.length := by rw [henc]; exact hb0
          have hlen1 : (writeBytes bytes offset
              (write_target_uint cx.endian cx.pointer_size off2h)).length =
              bytes.length := writeBytes_length bytes _ offset hwb
          have hex2 : ∃ e2 ∈ rest, ∃ err, f (e2.2, read_target_uint cx.endian
              (sliceBytes (writeBytes bytes offset
                (write_target_uint cx.endian cx.pointer_size off2h))
                e2.1 cx.pointer_size)) = .error err := by
            obtain ⟨e2, he2, err, herr⟩ := hex
            rw [List.mem_cons] at he2
            rcases he2 with he2 | he2
            · exfalso
              rw [he2] at herr
              dsimp only at herr
              rw [hf] at herr
              cases herr
            · refine ⟨e2, he2, err, ?_⟩
              rw [sliceBytes_writeBytes_disjoint bytes _ offset e2.1
                cx.pointer_size hwb (by right; rw [henc]; exact hsephead e2 he2)]
              exact herr
          obtain ⟨err, herr2⟩ := ih
            (writeBytes bytes offset (write_target_uint cx.endian cx.pointer_size off2h))
            hseprest
            (fun e2 he2 => by rw [hlen1]; exact hbound e2 (List.mem_cons_of_mem _ he2))
            hex2
          refine ⟨err, ?_⟩
          unfold adjustLoop
          rw [if_pos hb0, hf]
          dsimp only
          rw [herr2]

/-- C6: `adjust_from_tcx` processes each provenance entry by decoding the
pointer-sized integer at its offset with the configured endianness, calling
the remap function on the old identity and decoded offset, re-encoding the
returned offset into the same bytes, and recording the returned identity at
the same offset; bytes covered by no entry are untouched, and the
initialization mask, alignment, and mutability carry over.  If the remap
function fails on any entry, the whole operation returns the error and no
allocation: since the allocation is consumed, no partial byte mutation is
observable by the caller on failure. -/
theorem C6_adjust_from_tcx (a : Allocation AllocId Unit) (cx : DataLayout)
    (Extra Err : Type) (ex : Extra)
    (f : AllocId × Nat → Except Err (Prov × Nat))
    (hP : 0 < cx.pointer_size)
    (hsep : List.Pairwise (fun e1 e2 => e1.1 + cx.pointer_size ≤ e2.1)
      a.provenance.ptrs)
    (hbound : ∀ e ∈ a.provenance.ptrs, e.1 + cx.pointer_size ≤ a.bytes.length) :
    ((∀ e ∈ a.provenance.ptrs, ∃ q, f (e.2, read_target_uint cx.endian
        (sliceBytes a.bytes e.1 cx.pointer_size)) = .ok q) →
      ∃ b : Allocation Prov Extra,
        a.adjust_from_tcx cx ex f = some (.ok b) ∧
        b.bytes.length = a.bytes.length ∧
        b.init_mask = a.init_mask ∧ b.align = a.align ∧
        b.mutability = a.mutability ∧ b.extra = ex ∧
        b.provenance.ptrs.map Prod.fst = a.provenance.ptrs.map Prod.fst ∧
        (∀ offset aid p2 off2, (offset, aid) ∈ a.provenance.ptrs →
          f (aid, read_target_uint cx.endian
            (sliceBytes a.bytes offset cx.pointer_size)) = .ok (p2, off2) →
          (offset, p2) ∈ b.provenance.ptrs ∧
          sliceBytes b.bytes offset cx.pointer_size =
            write_target_uint cx.endian cx.pointer_size off2) ∧
        (∀ j, (∀ e ∈ a.provenance.ptrs, j < e.1 ∨ e.1 + cx.pointer_size ≤ j) →
          byteAt b.bytes j = byteAt a.bytes j)) ∧
    ((∃ e ∈ a.provenance.ptrs, ∃ err, f (e.2, read_target_uint cx.endian
        (sliceBytes a.bytes e.1 cx.pointer_size)) = .error err) →
      ∃ err, a.adjust_from_tcx cx ex f = some (.error err)) := by
  constructor
  · intro hok
    obtain ⟨bytes2, np, hloop, hlen2, hframe, hmap, hentry⟩ :=
      adjustLoop_ok_strong cx f hP a.provenance.ptrs a.bytes hsep hbound hok
    refine ⟨⟨bytes2, ⟨np⟩, a.init_mask, a.align, a.mutability, ex⟩, ?_, hlen2,
      rfl, rfl, rfl, rfl, hmap, hentry, hframe⟩
    unfold Allocation.adjust_from_tcx
    rw [hloop]
    rfl
  · intro hex
    obtain ⟨err, hloop⟩ :=
      adjustLoop_error_of_remap_error cx f hP a.provenance.ptrs a.bytes hsep hbound hex
    refine ⟨err, ?_⟩
    unfold Allocation.adjust_from_tcx
    rw [hloop]

/-- Witness for C6: two entries at offsets 0 and 2 (pointer size 2), one
remap function that always succeeds and one that always fails. -/
theorem C6_adjust_from_tcx_witness :
    (∃ b : Allocation MachProv Unit,
      (⟨[1, 0, 2, 0], ⟨[(0, ⟨1⟩), (2, ⟨2⟩)]⟩, ⟨[true, true, true, true]⟩, 1,
          Mutability.Not, ()⟩ : Allocation AllocId Unit).adjust_from_tcx
        ⟨2, Endian.little⟩ ()
        (fun q => (.ok (⟨q.1.id + 10⟩, q.2 + 1) : Except Unit (MachProv × Nat))) =
        some (.ok b)) ∧
    (∃ err, (⟨[1, 0, 2, 0], ⟨[(0, ⟨1⟩), (2, ⟨2⟩)]⟩, ⟨[true, true, true, true]⟩, 1,
          Mutability.Not, ()⟩ : Allocation AllocId Unit).adjust_from_tcx
        ⟨2, Endian.little⟩ ()
        (fun _ => (.error () : Except Unit (MachProv × Nat))) =
        some (.error err)) := by
  constructor
  · obtain ⟨b, hb, _⟩ := (C6_adjust_from_tcx
      (⟨[1, 0, 2, 0], ⟨[(0, ⟨1⟩), (2, ⟨2⟩)]⟩, ⟨[true, true, true, true]⟩, 1,
        Mutability.Not, ()⟩ : Allocation AllocId Unit)
      ⟨2, Endian.little⟩ Unit Unit ()
      (fun q => (.ok (⟨q.1.id + 10⟩, q.2 + 1) : Except Unit (MachProv × Nat)))
      (by decide) (by decide) (by decide)).1
      (fun e _ => ⟨_, rfl⟩)
    exact ⟨b, hb⟩
  · exact (C6_adjust_from_tcx
      (⟨[1, 0, 2, 0], ⟨[(0, ⟨1⟩), (2, ⟨2⟩)]⟩, ⟨[true, true, true, true]⟩, 1,
        Mutability.Not, ()⟩ : Allocation AllocId Unit)
      ⟨2, Endian.little⟩ Unit Unit ()
      (fun _ => (.error () : Except Unit (MachProv × Nat)))
      (by decide) (by decide) (by decide)).2
      ⟨(0, ⟨1⟩), by decide, (), rfl⟩

end MirAlloc
